import Mathlib

set_option maxHeartbeats 1000000

/-!
Verification development for the recipe-recommendation backend (src/main.py).

The file shallowly embeds the data and control flow of main.py:
  * `JValue` models Python values produced by `json.loads` (JSON numbers are
    modelled as integers; floating-point JSON numbers are outside the model).
  * `loadsL` / `json_loads` model the stdlib `json.loads` on such values.
  * `ser` models a standard compact JSON serialization (the spec notion of
    "the serialization of a JSON object value"), matching `json.dumps` with
    default separators and literal non-ASCII characters.
  * `tryAlt1`/`tryAlt2`/`tryAlt3`/`findallScan`/`searchBrace` model the two
    regular expressions used by `extract_json`, specialised to those fixed
    patterns with Python `re` semantics (leftmost scan, ordered alternation,
    lazy and greedy dot-all matching).
  * `extract_json`, `groq_chat`, `filter_food_items`, `get_recipes` and
    `suggest_recipes` mirror the functions of main.py.  The upstream HTTP
    call is abstracted by `HttpxResult` (response / timeout / transport
    error); `suggest_recipes` additionally counts how many LLM calls the
    recipe-generation step issued.
  Textual details that main.py takes from Python exception objects
  (`str(e)` of TypeError / KeyError / JSONDecodeError) are modelled by fixed
  representative strings; no claim depends on their exact content.
-/

/-- Python values decodable from JSON.  Objects are association lists in
insertion order with unique keys (as produced by `dedupPairs`). -/
inductive JValue where
  | null
  | bool (b : Bool)
  | num (n : Int)
  | str (s : String)
  | arr (xs : List JValue)
  | obj (kvs : List (String × JValue))

mutual

def decEqJ : (a b : JValue) → Decidable (a = b)
  | .null, .null => isTrue rfl
  | .null, .bool _ => isFalse (fun h => JValue.noConfusion h)
  | .null, .num _ => isFalse (fun h => JValue.noConfusion h)
  | .null, .str _ => isFalse (fun h => JValue.noConfusion h)
  | .null, .arr _ => isFalse (fun h => JValue.noConfusion h)
  | .null, .obj _ => isFalse (fun h => JValue.noConfusion h)
  | .bool _, .null => isFalse (fun h => JValue.noConfusion h)
  | .bool x, .bool y =>
    match decEq x y with
    | isTrue h => isTrue (by rw [h])
    | isFalse h => isFalse (by intro hh; injection hh; contradiction)
  | .bool _, .num _ => isFalse (fun h => JValue.noConfusion h)
  | .bool _, .str _ => isFalse (fun h => JValue.noConfusion h)
  | .bool _, .arr _ => isFalse (fun h => JValue.noConfusion h)
  | .bool _, .obj _ => isFalse (fun h => JValue.noConfusion h)
  | .num _, .null => isFalse (fun h => JValue.noConfusion h)
  | .num _, .bool _ => isFalse (fun h => JValue.noConfusion h)
  | .num x, .num y =>
    match decEq x y with
    | isTrue h => isTrue (by rw [h])
    | isFalse h => isFalse (by intro hh; injection hh; contradiction)
  | .num _, .str _ => isFalse (fun h => JValue.noConfusion h)
  | .num _, .arr _ => isFalse (fun h => JValue.noConfusion h)
  | .num _, .obj _ => isFalse (fun h => JValue.noConfusion h)
  | .str _, .null => isFalse (fun h => JValue.noConfusion h)
  | .str _, .bool _ => isFalse (fun h => JValue.noConfusion h)
  | .str _, .num _ => isFalse (fun h => JValue.noConfusion h)
  | .str x, .str y =>
    match decEq x y with
    | isTrue h => isTrue (by rw [h])
    | isFalse h => isFalse (by intro hh; injection hh; contradiction)
  | .str _, .arr _ => isFalse (fun h => JValue.noConfusion h)
  | .str _, .obj _ => isFalse (fun h => JValue.noConfusion h)
  | .arr _, .null => isFalse (fun h => JValue.noConfusion h)
  | .arr _, .bool _ => isFalse (fun h => JValue.noConfusion h)
  | .arr _, .num _ => isFalse (fun h => JValue.noConfusion h)
  | .arr _, .str _ => isFalse (fun h => JValue.noConfusion h)
  | .arr xs, .arr ys =>
    match decEqLJ xs ys with
    | isTrue h => isTrue (by rw [h])
    | isFalse h => isFalse (by intro hh; injection hh; contradiction)
  | .arr _, .obj _ => isFalse (fun h => JValue.noConfusion h)
  | .obj _, .null => isFalse (fun h => JValue.noConfusion h)
  | .obj _, .bool _ => isFalse (fun h => JValue.noConfusion h)
  | .obj _, .num _ => isFalse (fun h => JValue.noConfusion h)
  | .obj _, .str _ => isFalse (fun h => JValue.noConfusion h)
  | .obj _, .arr _ => isFalse (fun h => JValue.noConfusion h)
  | .obj ps, .obj qs =>
    match decEqPJ ps qs with
    | isTrue h => isTrue (by rw [h])
    | isFalse h => isFalse (by intro hh; injection hh; contradiction)

def decEqLJ : (xs ys : List JValue) → Decidable (xs = ys)
  | [], [] => isTrue rfl
  | [], _ :: _ => isFalse (fun h => List.noConfusion h)
  | _ :: _, [] => isFalse (fun h => List.noConfusion h)
  | x :: xs, y :: ys =>
    match decEqJ x y with
    | isFalse h => isFalse (by intro hh; injection hh; contradiction)
    | isTrue h1 =>
      match decEqLJ xs ys with
      | isTrue h2 => isTrue (by rw [h1, h2])
      | isFalse h => isFalse (by intro hh; injection hh; contradiction)

def decEqPJ : (ps qs : List (String × JValue)) → Decidable (ps = qs)
  | [], [] => isTrue rfl
  | [], _ :: _ => isFalse (fun h => List.noConfusion h)
  | _ :: _, [] => isFalse (fun h => List.noConfusion h)
  | (k1, v1) :: ps, (k2, v2) :: qs =>
    match decEq k1 k2 with
    | isFalse h => isFalse (by intro hh; injection hh; simp_all)
    | isTrue hk =>
      match decEqJ v1 v2 with
      | isFalse h => isFalse (by intro hh; injection hh; simp_all)
      | isTrue hv =>
        match decEqPJ ps qs with
        | isTrue h2 => isTrue (by rw [hk, hv, h2])
        | isFalse h => isFalse (by intro hh; injection hh; contradiction)

end

instance : DecidableEq JValue := decEqJ

/-- The character `\x7b` (opening brace). -/
def lbrace : Char := Char.ofNat 123

/-- The character `\x7d` (closing brace). -/
def rbrace : Char := Char.ofNat 125

/-- The backtick character. -/
def btick : Char := Char.ofNat 96

/-- JSON whitespace accepted by Python's json module. -/
def isWs (c : Char) : Bool := c = ' ' || c = '\t' || c = '\n' || c = '\r'

/-- Drop leading JSON whitespace. -/
def skipWs : List Char → List Char
  | [] => []
  | c :: rest => if isWs c then skipWs rest else c :: rest

def isDigitC (c : Char) : Bool := 48 ≤ c.toNat && c.toNat ≤ 57

def digitVal (c : Char) : Nat := c.toNat - 48

/-- Split a character list into its maximal digit prefix and the remainder. -/
def takeDigits : List Char → List Char × List Char
  | [] => ([], [])
  | c :: rest =>
    if isDigitC c then
      let p := takeDigits rest
      (c :: p.1, p.2)
    else ([], c :: rest)

def digitsToNat (ds : List Char) : Nat := ds.foldl (fun a c => a * 10 + digitVal c) 0

/-- Does the remainder continue the number as a float/exponent?  Python would
parse a float there; floats are outside this model, so we fail. -/
def floatCont : List Char → Bool
  | [] => false
  | c :: _ => c = '.' || c = 'e' || c = 'E'

/-- Leading-zero test on a digit list (JSON rejects `01`). -/
def leadZero : List Char → Bool
  | c :: _ :: _ => c = '0'
  | _ => false

/-- Parse a natural number literal (digits only, JSON grammar). -/
def parseNumNat (cs : List Char) : Option (Nat × List Char) :=
  let p := takeDigits cs
  if p.1.isEmpty then none
  else if leadZero p.1 then none
  else if floatCont p.2 then none
  else some (digitsToNat p.1, p.2)

/-- Parse a JSON number (integer part of the grammar). -/
def parseNum (cs : List Char) : Option (Int × List Char) :=
  match cs with
  | [] => none
  | c :: t =>
    if c = '-' then (parseNumNat t).map (fun p => (-(p.1 : Int), p.2))
    else (parseNumNat (c :: t)).map (fun p => ((p.1 : Int), p.2))

def hexVal? (c : Char) : Option Nat :=
  if 48 ≤ c.toNat && c.toNat ≤ 57 then some (c.toNat - 48)
  else if 97 ≤ c.toNat && c.toNat ≤ 102 then some (c.toNat - 87)
  else if 65 ≤ c.toNat && c.toNat ≤ 70 then some (c.toNat - 55)
  else none

/-- Parse the body of a JSON string after the opening quote, accumulating
decoded characters in reverse.  Mirrors Python's strict string scanner:
raw control characters are rejected, the standard escapes and `\uXXXX`
are decoded. -/
def parseStrAux (acc : List Char) : List Char → Option (String × List Char)
  | [] => none
  | c :: rest =>
    if c = '"' then some (String.mk acc.reverse, rest)
    else if c = '\\' then
      match rest with
      | [] => none
      | e :: rest2 =>
        if e = '"' then parseStrAux ('"' :: acc) rest2
        else if e = '\\' then parseStrAux ('\\' :: acc) rest2
        else if e = '/' then parseStrAux ('/' :: acc) rest2
        else if e = 'b' then parseStrAux ('\x08' :: acc) rest2
        else if e = 'f' then parseStrAux ('\x0c' :: acc) rest2
        else if e = 'n' then parseStrAux ('\n' :: acc) rest2
        else if e = 'r' then parseStrAux ('\r' :: acc) rest2
        else if e = 't' then parseStrAux ('\t' :: acc) rest2
        else if e = 'u' then
          match rest2 with
          | h1 :: h2 :: h3 :: h4 :: rest3 =>
            match hexVal? h1, hexVal? h2, hexVal? h3, hexVal? h4 with
            | some a, some b, some c2, some d =>
              parseStrAux (Char.ofNat (a * 4096 + b * 256 + c2 * 16 + d) :: acc) rest3
            | _, _, _, _ => none
          | _ => none
        else none
    else if c.toNat < 32 then none
    else parseStrAux (c :: acc) rest

/-- Strip an expected literal prefix, returning the remainder. -/
def stripP : List Char → List Char → Option (List Char)
  | [], l => some l
  | _ :: _, [] => none
  | p :: ps, c :: cs => if c = p then stripP ps cs else none

/-- Insert with Python `dict` semantics: last value wins, first position kept. -/
def insertKV : List (String × JValue) → String → JValue → List (String × JValue)
  | [], k, v => [(k, v)]
  | (k0, v0) :: t, k, v =>
    if k0 = k then (k0, v) :: t else (k0, v0) :: insertKV t k v

/-- `dict(pairs)` on a parsed member list. -/
def dedupPairs (l : List (String × JValue)) : List (String × JValue) :=
  l.foldl (fun acc kv => insertKV acc kv.1 kv.2) []

mutual

/-- Fuelled model of the recursive descent in Python's json scanner.
The fuel only bounds nesting of recursive calls; `loadsL` supplies
`length + 1`, which always suffices (each call consumes at least one
character before recursing). -/
def parseVal : Nat → List Char → Option (JValue × List Char)
  | 0, _ => none
  | fuel + 1, cs =>
    match skipWs cs with
    | [] => none
    | c :: rest =>
      if c = '"' then (parseStrAux [] rest).map (fun p => (JValue.str p.1, p.2))
      else if c = lbrace then parseMembers fuel rest
      else if c = '[' then parseItems fuel rest
      else if c = 'n' then (stripP ['u', 'l', 'l'] rest).map (fun r => (JValue.null, r))
      else if c = 't' then (stripP ['r', 'u', 'e'] rest).map (fun r => (JValue.bool true, r))
      else if c = 'f' then (stripP ['a', 'l', 's', 'e'] rest).map (fun r => (JValue.bool false, r))
      else if c = '-' || isDigitC c then (parseNum (c :: rest)).map (fun p => (JValue.num p.1, p.2))
      else none

/-- Object members after the opening brace. -/
def parseMembers : Nat → List Char → Option (JValue × List Char)
  | 0, _ => none
  | fuel + 1, cs =>
    match skipWs cs with
    | [] => none
    | c :: rest =>
      if c = rbrace then some (JValue.obj [], rest)
      else if c = '"' then
        match parseStrAux [] rest with
        | none => none
        | some (k, r1) =>
          match skipWs r1 with
          | [] => none
          | c2 :: r2 =>
            if c2 = ':' then
              match parseVal fuel r2 with
              | none => none
              | some (v, r3) =>
                match parseMoreMembers fuel r3 with
                | none => none
                | some (kvs, r4) => some (JValue.obj (dedupPairs ((k, v) :: kvs)), r4)
            else none
      else none

/-- Further `, "key": value` object members, or the closing brace. -/
def parseMoreMembers : Nat → List Char → Option (List (String × JValue) × List Char)
  | 0, _ => none
  | fuel + 1, cs =>
    match skipWs cs with
    | [] => none
    | c :: rest =>
      if c = rbrace then some ([], rest)
      else if c = ',' then
        match skipWs rest with
        | [] => none
        | c1 :: r1 =>
          if c1 = '"' then
            match parseStrAux [] r1 with
            | none => none
            | some (k, r2) =>
              match skipWs r2 with
              | [] => none
              | c2 :: r3 =>
                if c2 = ':' then
                  match parseVal fuel r3 with
                  | none => none
                  | some (v, r4) =>
                    match parseMoreMembers fuel r4 with
                    | none => none
                    | some (kvs, r5) => some ((k, v) :: kvs, r5)
                else none
          else none
      else none

/-- Array items after the opening bracket. -/
def parseItems : Nat → List Char → Option (JValue × List Char)
  | 0, _ => none
  | fuel + 1, cs =>
    match skipWs cs with
    | [] => none
    | c :: rest =>
      if c = ']' then some (JValue.arr [], rest)
      else
        match parseVal fuel cs with
        | none => none
        | some (v, r1) =>
          match parseMoreItems fuel r1 with
          | none => none
          | some (xs, r2) => some (JValue.arr (v :: xs), r2)

/-- Further `, value` array items, or the closing bracket. -/
def parseMoreItems : Nat → List Char → Option (List JValue × List Char)
  | 0, _ => none
  | fuel + 1, cs =>
    match skipWs cs with
    | [] => none
    | c :: rest =>
      if c = ']' then some ([], rest)
      else if c = ',' then
        match parseVal fuel rest with
        | none => none
        | some (v, r1) =>
          match parseMoreItems fuel r1 with
          | none => none
          | some (xs, r2) => some (v :: xs, r2)
      else none

end

/-- Model of `json.loads` on a character list: parse one value and require
only whitespace afterwards.  The fuel `2*length + 2` dominates the call
depth of any terminating parse (each pair of fuel units consumes at least
one input character), so the fuelled parser is total in the same way the
Python recursive-descent scanner is. -/
def loadsL (cs : List Char) : Option JValue :=
  match parseVal (2 * cs.length + 2) cs with
  | none => none
  | some (v, rest) => if (skipWs rest).isEmpty then some v else none

/-- Model of `json.loads` on strings. -/
def json_loads (s : String) : Option JValue := loadsL s.data

/-- Hex digit character for a value below 16 (lower case, as json.dumps). -/
def hexDigit (n : Nat) : Char := if n < 10 then Char.ofNat (48 + n) else Char.ofNat (87 + n)

/-- Serialization of one string character, as `json.dumps` emits it
(shortcut escapes, `\u00XX` for remaining control characters, other
characters literal). -/
def escapeChar (c : Char) : List Char :=
  if c = '"' then ['\\', '"']
  else if c = '\\' then ['\\', '\\']
  else if c = '\n' then ['\\', 'n']
  else if c = '\r' then ['\\', 'r']
  else if c = '\t' then ['\\', 't']
  else if c = '\x08' then ['\\', 'b']
  else if c = '\x0c' then ['\\', 'f']
  else if c.toNat < 32 then
    ['\\', 'u', '0', '0', hexDigit (c.toNat / 16), hexDigit (c.toNat % 16)]
  else [c]

/-- Serialization of a JSON string with its quotes. -/
def serStr (s : String) : List Char := '"' :: s.data.flatMap escapeChar ++ ['"']

/-- Decimal digits of a natural number, with structural fuel (any fuel at
least `n` gives the digits of `n`). -/
def natDigitsAux : Nat → Nat → List Char
  | 0, n => [Char.ofNat (48 + n % 10)]
  | fuel + 1, n =>
    if n < 10 then [Char.ofNat (48 + n)]
    else natDigitsAux fuel (n / 10) ++ [Char.ofNat (48 + n % 10)]

/-- Decimal digits of a natural number. -/
def natDigits (n : Nat) : List Char := natDigitsAux n n

/-- Decimal representation of an integer, as `json.dumps` prints it. -/
def intChars (n : Int) : List Char :=
  if n < 0 then '-' :: natDigits n.natAbs else natDigits n.natAbs

mutual

/-- Model of `json.dumps` with default separators: the "serialization" of a
JSON value in the sense of the specification. -/
def ser : JValue → List Char
  | .null => ['n', 'u', 'l', 'l']
  | .bool false => ['f', 'a', 'l', 's', 'e']
  | .bool true => ['t', 'r', 'u', 'e']
  | .num n => intChars n
  | .str s => serStr s
  | .arr [] => ['[', ']']
  | .arr (x :: xs) => '[' :: (ser x ++ serArrTail xs ++ [']'])
  | .obj [] => [lbrace, rbrace]
  | .obj (kv :: kvs) => lbrace :: (serPair kv ++ serObjTail kvs ++ [rbrace])

def serArrTail : List JValue → List Char
  | [] => []
  | x :: xs => ',' :: ' ' :: (ser x ++ serArrTail xs)

def serPair : String × JValue → List Char
  | (k, v) => serStr k ++ ':' :: ' ' :: ser v

def serObjTail : List (String × JValue) → List Char
  | [] => []
  | kv :: kvs => ',' :: ' ' :: (serPair kv ++ serObjTail kvs)

end

/-- String form of the serialization. -/
def serialize (v : JValue) : String := String.mk (ser v)

/-- Keys of an association list. -/
def kvKeys (kvs : List (String × JValue)) : List String := kvs.map Prod.fst

/-- No duplicates in a string list (decidable, executable). -/
def strNodup : List String → Bool
  | [] => true
  | s :: t => !(t.contains s) && strNodup t

mutual

/-- Well-formedness: every object in the value has pairwise distinct keys,
so the value is the image of an actual Python `dict`-based value. -/
def jwf : JValue → Bool
  | .null => true
  | .bool _ => true
  | .num _ => true
  | .str _ => true
  | .arr xs => jwfList xs
  | .obj kvs => strNodup (kvKeys kvs) && jwfPairs kvs

def jwfList : List JValue → Bool
  | [] => true
  | x :: xs => jwf x && jwfList xs

def jwfPairs : List (String × JValue) → Bool
  | [] => true
  | kv :: kvs => jwf kv.2 && jwfPairs kvs

end

mutual

/-- Fuel bound used in the parser round-trip proof. -/
def sizeJ : JValue → Nat
  | .null => 1
  | .bool _ => 1
  | .num _ => 1
  | .str _ => 1
  | .arr xs => 2 + sizeLJ xs
  | .obj kvs => 2 + sizePJ kvs

def sizeLJ : List JValue → Nat
  | [] => 0
  | x :: xs => 1 + sizeJ x + sizeLJ xs

def sizePJ : List (String × JValue) → Nat
  | [] => 0
  | kv :: kvs => 1 + sizeJ kv.2 + sizePJ kvs

end

/-- Python truthiness of a JSON-decoded value (`if not x`). -/
def pyFalsy : JValue → Bool
  | .null => true
  | .bool b => !b
  | .num n => n = 0
  | .str s => s.data.isEmpty
  | .arr xs => xs.isEmpty
  | .obj kvs => kvs.isEmpty

/-- First-key lookup in an association list (Python `dict` access on the
deduplicated lists produced by the parser). -/
def lookupKv : List (String × JValue) → String → Option JValue
  | [], _ => none
  | (k, v) :: t, key => if k = key then some v else lookupKv t key

/-- `type(x).__name__` for the modelled values. -/
def typeName : JValue → String
  | .null => "NoneType"
  | .bool _ => "bool"
  | .num _ => "int"
  | .str _ => "str"
  | .arr _ => "list"
  | .obj _ => "dict"

/-! Model of the two regular expressions of `extract_json`:
`r1 = three backticks, "json", newline, lazy brace group, newline, three backticks`
(first alternative), the same without the "json" tag (second alternative), and
the greedy dot-all brace group (third alternative), scanned by `re.findall`;
and the greedy dot-all brace group used by `re.search`.  Matching is DOTALL. -/

/-- `json` tag fence opener: three backticks, `json`, newline. -/
def fenceJson : List Char := [btick, btick, btick, 'j', 's', 'o', 'n', '\n']

/-- Untagged fence opener: three backticks, newline. -/
def fencePlain : List Char := [btick, btick, btick, '\n']

/-- Fence closer: newline, three backticks. -/
def fenceClose : List Char := ['\n', btick, btick, btick]

/-- Lazy scan of `.*?` before a closing brace that must be followed by the
fence closer: stops at the first closing brace whose successors spell the
closer, exactly like the lazy quantifier with the anchored continuation. -/
def lazyBody : List Char → Option (List Char × List Char)
  | [] => none
  | c :: rest =>
    if c = rbrace && (stripP fenceClose rest).isSome then
      some ([], (stripP fenceClose rest).getD [])
    else
      (lazyBody rest).map (fun p => (c :: p.1, p.2))

/-- Last-closing-brace split: the prefix up to and including the last closing
brace, and the suffix after it (the backtracking of the greedy `.*`). -/
def upToLastClose : List Char → Option (List Char × List Char)
  | [] => none
  | c :: rest =>
    match upToLastClose rest with
    | some (pre, suf) => some (c :: pre, suf)
    | none => if c = rbrace then some ([c], rest) else none

/-- First alternative of the findall pattern at this position: capture group
and remainder of the subject after the whole match. -/
def tryAlt1 (cs : List Char) : Option (List Char × List Char) :=
  match stripP fenceJson cs with
  | none => none
  | some cs1 =>
    match cs1 with
    | [] => none
    | c :: rest =>
      if c = lbrace then
        (lazyBody rest).map (fun p => (lbrace :: (p.1 ++ [rbrace]), p.2))
      else none

/-- Second alternative (untagged fence) at this position. -/
def tryAlt2 (cs : List Char) : Option (List Char × List Char) :=
  match stripP fencePlain cs with
  | none => none
  | some cs1 =>
    match cs1 with
    | [] => none
    | c :: rest =>
      if c = lbrace then
        (lazyBody rest).map (fun p => (lbrace :: (p.1 ++ [rbrace]), p.2))
      else none

/-- Third alternative (greedy bare brace group) at this position. -/
def tryAlt3 (cs : List Char) : Option (List Char × List Char) :=
  match cs with
  | [] => none
  | c :: rest =>
    if c = lbrace then
      (upToLastClose rest).map (fun p => (lbrace :: p.1, p.2))
    else none

/-- `re.findall` for the three-alternative pattern: scan left to right, try
the alternatives in order at each position, continue after each match.
The fuel is an upper bound on the scan length; `length cs` suffices. -/
def findallScan : Nat → List Char → List (List Char × List Char × List Char)
  | 0, _ => []
  | _ + 1, [] => []
  | fuel + 1, c :: rest =>
    match tryAlt1 (c :: rest) with
    | some (cap, rem) => (cap, [], []) :: findallScan fuel rem
    | none =>
      match tryAlt2 (c :: rest) with
      | some (cap, rem) => ([], cap, []) :: findallScan fuel rem
      | none =>
        match tryAlt3 (c :: rest) with
        | some (cap, rem) => ([], [], cap) :: findallScan fuel rem
        | none => findallScan fuel rest

/-- `re.search` for the greedy dot-all brace pattern: leftmost start
position, greedy extent. -/
def searchBrace : List Char → Option (List Char)
  | [] => none
  | c :: rest =>
    if c = lbrace then
      match upToLastClose rest with
      | some (pre, _) => some (lbrace :: pre)
      | none => searchBrace rest
    else searchBrace rest

instance {ε α : Type} [DecidableEq ε] [DecidableEq α] : DecidableEq (Except ε α)
  | .ok a, .ok b =>
    match decEq a b with
    | isTrue h => isTrue (by rw [h])
    | isFalse h => isFalse (by intro hh; injection hh; contradiction)
  | .ok _, .error _ => isFalse (fun h => Except.noConfusion h)
  | .error _, .ok _ => isFalse (fun h => Except.noConfusion h)
  | .error a, .error b =>
    match decEq a b with
    | isTrue h => isTrue (by rw [h])
    | isFalse h => isFalse (by intro hh; injection hh; contradiction)

/-- HTTP error signal: a FastAPI `HTTPException` with status and detail. -/
structure HTTPError where
  status : Nat
  detail : String
deriving DecidableEq

/-- `str(e)` of a FastAPI `HTTPException` (Starlette renders it as
`"<status>: <detail>"`). -/
def estr (e : HTTPError) : String := toString e.status ++ ": " ++ e.detail

/-- Representative text of a `json.JSONDecodeError` (the model abstracts the
exact position information; no claim depends on this text). -/
def jsonDecodeMsg : String := "Expecting value: line 1 column 1 (char 0)"

/-- Flatten the group tuples of the findall matches and keep the non-empty
groups, in order (the list comprehension of main.py line 83). -/
def groupStrings (ms : List (List Char × List Char × List Char)) : List (List Char) :=
  ms.flatMap (fun m => [m.1, m.2.1, m.2.2].filter (fun g => !g.isEmpty))

/-- The loop of main.py lines 87-91: parse each candidate, first success wins. -/
def firstParse : List (List Char) → Option JValue
  | [] => none
  | c :: t =>
    match loadsL c with
    | some v => some v
    | none => firstParse t

/-- Model of `extract_json` (main.py lines 70-100).  Strategies in order:
whole-text parse, findall over the fenced/bare patterns with
first-parse-wins, greedy brace search; the inner failures (the structured
`HTTPException` and the `JSONDecodeError` of the last `json.loads`) are both
caught by the inner `except Exception` and re-wrapped with the
`Failed to extract JSON:` prefix, `str` rendering the inner exception. -/
def extract_json (response : String) : Except HTTPError JValue :=
  match loadsL response.data with
  | some v => .ok v
  | none =>
    let cands := groupStrings (findallScan response.data.length response.data)
    match firstParse cands with
    | some v => .ok v
    | none =>
      match searchBrace response.data with
      | some sub =>
        match loadsL sub with
        | some v => .ok v
        | none =>
          .error ⟨500, "Failed to extract JSON: " ++ jsonDecodeMsg⟩
      | none =>
        .error ⟨500, "Failed to extract JSON: " ++
          estr ⟨500, "No valid JSON found in response."⟩⟩

/-! Model of the upstream HTTP call of `groq_chat`.  The outcome of
`client.post` / `raise_for_status` / `response.json` is abstracted by
`HttpxResult`; the message texts of the generic Python exceptions
(TypeError, KeyError, IndexError) that the value-shape corner cases would
raise are modelled by representative strings. -/

/-- Outcome of the httpx POST: a response with status code and body text,
a timeout, or another transport-level failure with message `str(e)`. -/
inductive HttpxResult where
  | response (status : Nat) (body : String)
  | timeout
  | transportError (msg : String)
deriving DecidableEq

/-- `response.is_success`: httpx raises `HTTPStatusError` for anything
outside 2xx. -/
def is2xx (s : Nat) : Bool := 200 ≤ s && s ≤ 299

/-- A Python exception inside the `try` block: either an `HTTPException`
(rendered by Starlette as `"<status>: <detail>"`) or another exception
carrying its `str(e)` text. -/
inductive PyErr where
  | httpExc (e : HTTPError)
  | plain (msg : String)
deriving DecidableEq

/-- `str(e)` of the exception. -/
def PyErr.render : PyErr → String
  | .httpExc e => estr e
  | .plain m => m

/-- Python `key in value` for a string key: key test on dicts, membership on
lists, substring test on strings, TypeError otherwise. -/
def isInfixL (pat : List Char) : List Char → Bool
  | [] => pat.isEmpty
  | c :: rest => (stripP pat (c :: rest)).isSome || isInfixL pat rest

def pyInKey (k : String) : JValue → Except PyErr Bool
  | .obj kvs => .ok (lookupKv kvs k).isSome
  | .arr xs => .ok (xs.contains (.str k))
  | .str s => .ok (isInfixL k.data s.data)
  | v => .error (.plain ("argument of type \x27" ++ typeName v ++ "\x27 is not iterable"))

/-- Python `value[k]` for a string subscript. -/
def pySubsKey (v : JValue) (k : String) : Except PyErr JValue :=
  match v with
  | .obj kvs =>
    match lookupKv kvs k with
    | some w => .ok w
    | none => .error (.plain ("\x27" ++ k ++ "\x27"))
  | .arr _ => .error (.plain "list indices must be integers or slices, not str")
  | .str _ => .error (.plain "string indices must be integers")
  | w => .error (.plain ("\x27" ++ typeName w ++ "\x27 object is not subscriptable"))

/-- Python `value[0]`. -/
def pySubsZero (v : JValue) : Except PyErr JValue :=
  match v with
  | .arr (x :: _) => .ok x
  | .arr [] => .error (.plain "list index out of range")
  | .str s =>
    match s.data with
    | c :: _ => .ok (.str (String.mk [c]))
    | [] => .error (.plain "string index out of range")
  | .obj _ => .error (.plain "0")
  | w => .error (.plain ("\x27" ++ typeName w ++ "\x27 object is not subscriptable"))

/-- Lines 52-61 of main.py: the choices check, content extraction and the
early `json.loads(content)` validation, on the parsed response body. -/
def chatBody (data : JValue) : Except PyErr String :=
  match pyInKey "choices" data with
  | .error e => .error e
  | .ok inB =>
    if inB then
      match pySubsKey data "choices" with
      | .error e => .error e
      | .ok choices =>
        if pyFalsy choices then
          .error (.httpExc ⟨500, "Empty response from Groq API."⟩)
        else
          match pySubsZero choices with
          | .error e => .error e
          | .ok first =>
            match pySubsKey first "message" with
            | .error e => .error e
            | .ok msg =>
              match pySubsKey msg "content" with
              | .error e => .error e
              | .ok contentV =>
                match contentV with
                | .str content =>
                  match loadsL content.data with
                  | some _ => .ok content
                  | none =>
                    .error (.httpExc ⟨500,
                      "Groq API returned invalid JSON: " ++ jsonDecodeMsg⟩)
                | w =>
                  .error (.plain
                    ("the JSON object must be str, bytes or bytearray, not "
                      ++ typeName w))
    else .error (.httpExc ⟨500, "Empty response from Groq API."⟩)

/-- Model of `groq_chat` (main.py lines 23-68).  The exception handlers: a
non-2xx response raises `HTTPStatusError` and propagates status and body;
a timeout gives the fixed message; every other exception — including the
`HTTPException`s raised inside the `try` block for invalid-JSON content and
for empty choices — is caught by `except Exception` and wrapped as
`Unexpected Error: str(e)`. -/
def groq_chat : HttpxResult → Except HTTPError String
  | .timeout => .error ⟨500, "Groq API request timed out."⟩
  | .transportError m => .error ⟨500, "Unexpected Error: " ++ m⟩
  | .response status body =>
    if is2xx status then
      match loadsL body.data with
      | none => .error ⟨500, "Unexpected Error: " ++ jsonDecodeMsg⟩
      | some data =>
        match chatBody data with
        | .ok c => .ok c
        | .error pe => .error ⟨500, "Unexpected Error: " ++ pe.render⟩
    else .error ⟨status, "Groq API Error: " ++ body⟩

/-- Model of `filter_food_items` (main.py lines 102-119): one LLM call
followed by JSON extraction.  The prompts are data sent to the external
LLM and do not influence the modelled control flow. -/
def filter_food_items (o : HttpxResult) : Except HTTPError JValue :=
  match groq_chat o with
  | .error e => .error e
  | .ok response => extract_json response

/-- The literal `{"recipes": [], "additional_ingredients": []}` of
main.py line 124. -/
def emptyRecipeResult : JValue :=
  .obj [("recipes", .arr []), ("additional_ingredients", .arr [])]

/-- Model of `get_recipes` (main.py lines 121-157): falsy input
short-circuits without any LLM call; otherwise one LLM call plus JSON
extraction.  The second component counts the LLM calls issued. -/
def get_recipes (food_items : JValue) (o : HttpxResult) :
    Except HTTPError JValue × Nat :=
  if pyFalsy food_items then (.ok emptyRecipeResult, 0)
  else
    match groq_chat o with
    | .error e => (.error e, 1)
    | .ok response => (extract_json response, 1)

/-- `value.get(key, [])`: Python `dict.get` with default, an
`AttributeError` on non-dict values. -/
def dictGetD (v : JValue) (k : String) (d : JValue) : Except String JValue :=
  match v with
  | .obj kvs => .ok ((lookupKv kvs k).getD d)
  | w => .error ("\x27" ++ typeName w ++ "\x27 object has no attribute \x27get\x27")

/-- The response dictionary of the endpoint (main.py lines 174-179). -/
structure SuggestResponse where
  filtered_food_items : JValue
  non_food_items : JValue
  recipes : JValue
  additional_ingredients : JValue
deriving DecidableEq

/-- Model of the `/suggest-recipes` endpoint (main.py lines 159-184), given
the upstream outcomes of the classification call and of the recipe call.
`HTTPException`s are re-raised unchanged by the first handler; any other
exception (here: the `AttributeError` of `.get` on a non-dict extraction
result) becomes status 500 with `str(e)`.  The second component counts the
LLM calls issued by the recipe-generation step. -/
def suggest_recipes (o1 o2 : HttpxResult) :
    Except HTTPError SuggestResponse × Nat :=
  match filter_food_items o1 with
  | .error e => (.error e, 0)
  | .ok fir =>
    match dictGetD fir "food_items" (.arr []) with
    | .error msg => (.error ⟨500, msg⟩, 0)
    | .ok food_items =>
      match dictGetD fir "non_food_items" (.arr []) with
      | .error msg => (.error ⟨500, msg⟩, 0)
      | .ok non_food_items =>
        if pyFalsy food_items then
          (.error ⟨400, "No food-related items found."⟩, 0)
        else
          match get_recipes food_items o2 with
          | (.error e, n) => (.error e, n)
          | (.ok recipes_result, n) =>
            match dictGetD recipes_result "recipes" (.arr []) with
            | .error msg => (.error ⟨500, msg⟩, n)
            | .ok recs =>
              match dictGetD recipes_result "additional_ingredients" (.arr []) with
              | .error msg => (.error ⟨500, msg⟩, n)
              | .ok addl =>
                (.ok ⟨food_items, non_food_items, recs, addl⟩, n)

/-! Concrete inputs used by the witnesses below.  They are built with the
serializer, so the strings are ordinary compact JSON texts. -/

/-- A chat-completion envelope whose single choice carries `c` as message
content. -/
def envFor (c : String) : String :=
  serialize (.obj [("choices",
    .arr [.obj [("message", .obj [("content", .str c)])]])])

/-- Classification content with an empty food-item list. -/
def wcEmptyFood : String :=
  serialize (.obj [("food_items", .arr []), ("non_food_items", .arr [.str "soap"])])

/-- Classification content with one food item and one non-food item. -/
def wcGoodFood : String :=
  serialize (.obj [("food_items", .arr [.str "rice"]),
    ("non_food_items", .arr [.str "soap"])])

/-- Recipe content with one recipe and one additional ingredient. -/
def wcRecipe : String :=
  serialize (.obj [("recipes", .arr [.str "fried rice"]),
    ("additional_ingredients", .arr [.str "salt"])])

/-- Classification content missing the `non_food_items` key. -/
def wcOnlyFood : String := serialize (.obj [("food_items", .arr [.str "rice"])])

/-- Recipe content missing both optional keys. -/
def wcBareRecipe : String := serialize (.obj [("note", .str "none")])

/-- Classification content missing the `food_items` key. -/
def wcNoFoodKey : String :=
  serialize (.obj [("non_food_items", .arr [.str "soap"])])

/-- The previous content with an explicit empty `food_items` key prepended. -/
def wcExplicitEmptyFood : String :=
  serialize (.obj [("food_items", .arr []), ("non_food_items", .arr [.str "soap"])])

/-- The remainder does not continue a number: empty, or headed by a
non-digit that is not a float continuation. -/
def sepOk : List Char → Bool
  | [] => true
  | c :: _ => !(isDigitC c || c = '.' || c = 'e' || c = 'E')

/-- Number values must not be followed by digit-like characters for the
round trip (arrays and objects end with brackets, so only a top-level
number is sensitive to what follows). -/
def numOk : JValue → List Char → Bool
  | .num _, rest => sepOk rest
  | _, _ => true

/-- The first non-whitespace character of the leading prose must not open a
JSON string or array (otherwise the whole-text parse could swallow the
embedded object). -/
def headOkProse : List Char → Bool
  | [] => true
  | c :: _ => !(c = '"' || c = '[')

/-! ## Theorems -/

/-- The wrapped extraction failure never collides with the inner message. -/
theorem failed_wrap_ne (t : String) :
    "Failed to extract JSON: " ++ t ≠ "No valid JSON found in response." := by
  intro h
  have h2 : ("Failed to extract JSON: " ++ t).data.take 2 =
      "No valid JSON found in response.".data.take 2 := by rw [h]
  rw [String.data_append, List.take_append_of_le_length (by decide)] at h2
  exact absurd h2 (by decide)

/-- Claim C1: if the classification step parses to an object whose
`food_items` key is absent or maps to the empty list, the endpoint answers
with status 400, detail `No food-related items found.`, and the
recipe-generation LLM call count is zero. -/
theorem suggest_recipes_rejects_empty_food (o1 o2 : HttpxResult) (c : String)
    (kvs : List (String × JValue))
    (h1 : groq_chat o1 = .ok c)
    (h2 : extract_json c = .ok (.obj kvs))
    (h3 : lookupKv kvs "food_items" = none ∨
      lookupKv kvs "food_items" = some (.arr [])) :
    suggest_recipes o1 o2 = (.error ⟨400, "No food-related items found."⟩, 0) := by
  unfold suggest_recipes filter_food_items
  rcases h3 with h3 | h3 <;> simp [h1, h2, dictGetD, h3, pyFalsy]

/-- Witness for C1 at concrete upstream outcomes. -/
theorem suggest_recipes_rejects_empty_food_witness :
    groq_chat (.response 200 (envFor wcEmptyFood)) = .ok wcEmptyFood ∧
    extract_json wcEmptyFood =
      .ok (.obj [("food_items", .arr []), ("non_food_items", .arr [.str "soap"])]) ∧
    suggest_recipes (.response 200 (envFor wcEmptyFood)) .timeout =
      (.error ⟨400, "No food-related items found."⟩, 0) :=
  ⟨rfl, rfl,
    suggest_recipes_rejects_empty_food (.response 200 (envFor wcEmptyFood))
      .timeout wcEmptyFood _ rfl rfl (Or.inr rfl)⟩

/-- Claim C6: on a falsy (in particular: empty) food-item list,
`get_recipes` returns the literal empty recipe result and issues no LLM
call, for every upstream outcome. -/
theorem get_recipes_empty_short_circuit (o : HttpxResult) :
    get_recipes (.arr []) o =
      (.ok (.obj [("recipes", .arr []), ("additional_ingredients", .arr [])]), 0) := rfl

/-- Claim C9: a string that parses in full as a non-object JSON value is
returned as-is by `extract_json` (the whole-text strategy does not check
that the value is an object). -/
theorem extract_json_returns_nonobject (s : String) (v : JValue)
    (h : json_loads s = some v) (_hv : ∀ kvs, v ≠ JValue.obj kvs) :
    extract_json s = .ok v := by
  have h' : loadsL s.data = some v := h
  unfold extract_json
  rw [h']

/-- Witness for C9 on a JSON array input. -/
theorem extract_json_returns_nonobject_witness :
    json_loads "[1, 2]" = some (.arr [.num 1, .num 2]) ∧
    extract_json "[1, 2]" = .ok (.arr [.num 1, .num 2]) :=
  ⟨rfl, extract_json_returns_nonobject "[1, 2]" (.arr [.num 1, .num 2]) rfl
    (fun _ h => JValue.noConfusion h)⟩

/-- Claim C10: every failure of `extract_json` reaches the caller as the
wrapped catch-all error: status 500, detail prefixed
`Failed to extract JSON: `, and never the inner
`No valid JSON found in response.` message as-is. -/
theorem extract_json_failure_always_wrapped (s : String) (e : HTTPError)
    (h : extract_json s = .error e) :
    e.status = 500 ∧ (∃ t, e.detail = "Failed to extract JSON: " ++ t) ∧
      e.detail ≠ "No valid JSON found in response." := by
  unfold extract_json at h
  dsimp only at h
  repeat' split at h
  all_goals
    first
      | exact Except.noConfusion h
      | (injection h with h2
         subst h2
         exact ⟨rfl, ⟨_, rfl⟩, failed_wrap_ne _⟩)

/-- Witness for C10 on an input with no JSON content at all. -/
theorem extract_json_failure_always_wrapped_witness :
    extract_json "hello" =
      .error ⟨500, "Failed to extract JSON: 500: No valid JSON found in response."⟩ ∧
    ((500 : Nat) = 500 ∧
      (∃ t, "Failed to extract JSON: 500: No valid JSON found in response." =
        "Failed to extract JSON: " ++ t) ∧
      "Failed to extract JSON: 500: No valid JSON found in response." ≠
        "No valid JSON found in response.") :=
  ⟨rfl, extract_json_failure_always_wrapped "hello"
    ⟨500, "Failed to extract JSON: 500: No valid JSON found in response."⟩ rfl⟩

/-- Claim C4 (counterexample): a 2xx upstream response with one choice whose
content is not valid JSON is not returned; `groq_chat` raises instead
(the early `json.loads(content)` validation), so the claim as stated fails. -/
theorem groq_chat_nonjson_content_not_returned :
    is2xx 200 = true ∧
    json_loads (envFor "hello") =
      some (.obj [("choices",
        .arr [.obj [("message", .obj [("content", .str "hello")])]])]) ∧
    groq_chat (.response 200 (envFor "hello")) ≠ .ok "hello" :=
  ⟨rfl, rfl, by decide⟩

/-- Claim C4 (amended): for a 2xx response whose first choice carries a
message content that itself parses as JSON, `groq_chat` returns that
content unmodified. -/
theorem groq_chat_returns_first_choice_content (st : Nat) (body c : String)
    (kvs fk mk2 : List (String × JValue)) (rest : List JValue) (j : JValue)
    (h1 : is2xx st = true)
    (h2 : loadsL body.data = some (.obj kvs))
    (h3 : lookupKv kvs "choices" = some (.arr (JValue.obj fk :: rest)))
    (h4 : lookupKv fk "message" = some (.obj mk2))
    (h5 : lookupKv mk2 "content" = some (.str c))
    (h6 : loadsL c.data = some j) :
    groq_chat (.response st body) = .ok c := by
  unfold groq_chat chatBody
  simp [h1, h2, pyInKey, h3, pySubsKey, pyFalsy, pySubsZero, h4, h5, h6]

/-- Witness for the amended C4 at a concrete envelope. -/
theorem groq_chat_returns_first_choice_content_witness :
    is2xx 200 = true ∧
    loadsL (envFor "[1]").data =
      some (.obj [("choices",
        .arr [.obj [("message", .obj [("content", .str "[1]")])]])]) ∧
    groq_chat (.response 200 (envFor "[1]")) = .ok "[1]" :=
  ⟨rfl, rfl,
    groq_chat_returns_first_choice_content 200 (envFor "[1]") "[1]"
      [("choices", .arr [.obj [("message", .obj [("content", .str "[1]")])]])]
      [("message", .obj [("content", .str "[1]")])]
      [("content", .str "[1]")] [] (.arr [.num 1])
      rfl rfl rfl rfl rfl rfl⟩

/-- Claim C5 (counterexample): on a 2xx response whose body parses but has
no choices, the error reaching the caller is not the plain empty-response
`HTTPException`; that exception is intercepted by the function's own
`except Exception` handler and re-wrapped. -/
theorem groq_chat_empty_choices_not_plain :
    groq_chat (.response 200 (serialize (.obj []))) =
      .error ⟨500, "Unexpected Error: 500: Empty response from Groq API."⟩ ∧
    groq_chat (.response 200 (serialize (.obj []))) ≠
      .error ⟨500, "Empty response from Groq API."⟩ :=
  ⟨rfl, by decide⟩

/-- Claim C5 (amended): the failure taxonomy of `groq_chat`.  A non-2xx
response propagates the upstream status and body text; a timeout gives the
fixed 500 timeout error; another transport failure gives the generic
wrapped 500 error; a 2xx response whose parsed body lacks a truthy
`choices` entry gives status 500 with the empty-response message wrapped by
the catch-all handler. -/
theorem groq_chat_error_taxonomy :
    (∀ st body, is2xx st = false →
      groq_chat (.response st body) = .error ⟨st, "Groq API Error: " ++ body⟩) ∧
    groq_chat .timeout = .error ⟨500, "Groq API request timed out."⟩ ∧
    (∀ msg, groq_chat (.transportError msg) =
      .error ⟨500, "Unexpected Error: " ++ msg⟩) ∧
    (∀ st body kvs, is2xx st = true → loadsL body.data = some (.obj kvs) →
      (lookupKv kvs "choices" = none ∨
        ∃ ch, lookupKv kvs "choices" = some ch ∧ pyFalsy ch = true) →
      groq_chat (.response st body) =
        .error ⟨500, "Unexpected Error: 500: Empty response from Groq API."⟩) := by
  refine ⟨fun st body h => ?_, rfl, fun msg => rfl, fun st body kvs h1 h2 h3 => ?_⟩
  · unfold groq_chat
    simp [h]
  · unfold groq_chat chatBody
    rcases h3 with h3 | ⟨ch, h3, hch⟩
    · simp [h1, h2, pyInKey, h3, estr]
      rfl
    · simp [h1, h2, pyInKey, h3, pySubsKey, hch, estr]
      rfl

/-- Witness for the amended C5 covering the conjuncts with hypotheses. -/
theorem groq_chat_error_taxonomy_witness :
    groq_chat (.response 404 "nope") = .error ⟨404, "Groq API Error: nope"⟩ ∧
    groq_chat (.response 200 (serialize (.obj [("choices", .arr [])]))) =
      .error ⟨500, "Unexpected Error: 500: Empty response from Groq API."⟩ :=
  ⟨groq_chat_error_taxonomy.1 404 "nope" rfl,
    groq_chat_error_taxonomy.2.2.2 200 (serialize (.obj [("choices", .arr [])]))
      [("choices", .arr [])] rfl rfl (Or.inr ⟨.arr [], rfl, rfl⟩)⟩

/-- Claim C7: keys absent from a parsed classification or recipe object
default to the empty list.  Part one: the `.get(key, [])` mechanism yields
the default on an absent key without error.  Part two: with
`non_food_items`, `recipes` and `additional_ingredients` all absent, the
endpoint succeeds and answers with empty lists for the three keys.  Part
three: an absent `food_items` key behaves exactly like an explicitly empty
one (same endpoint result), so the absent key itself never causes an
error. -/
theorem absent_keys_default_to_empty_list :
    (∀ kvs k d, lookupKv kvs k = none → dictGetD (.obj kvs) k d = .ok d) ∧
    (∀ o1 o2 c1 kvs fv c2 rkvs,
      groq_chat o1 = .ok c1 → extract_json c1 = .ok (.obj kvs) →
      lookupKv kvs "food_items" = some fv → pyFalsy fv = false →
      lookupKv kvs "non_food_items" = none →
      groq_chat o2 = .ok c2 → extract_json c2 = .ok (.obj rkvs) →
      lookupKv rkvs "recipes" = none →
      lookupKv rkvs "additional_ingredients" = none →
      suggest_recipes o1 o2 = (.ok ⟨fv, .arr [], .arr [], .arr []⟩, 1)) ∧
    (∀ o1 o1' o2 c1 c1' kvs,
      groq_chat o1 = .ok c1 → extract_json c1 = .ok (.obj kvs) →
      lookupKv kvs "food_items" = none →
      groq_chat o1' = .ok c1' →
      extract_json c1' = .ok (.obj (("food_items", .arr []) :: kvs)) →
      suggest_recipes o1 o2 = suggest_recipes o1' o2) := by
  refine ⟨fun kvs k d h => by simp [dictGetD, h],
    fun o1 o2 c1 kvs fv c2 rkvs h1 h2 h3 h4 h5 h6 h7 h8 h9 => ?_,
    fun o1 o1' o2 c1 c1' kvs h1 h2 h3 h4 h5 => ?_⟩
  · unfold suggest_recipes filter_food_items get_recipes
    simp [h1, h2, dictGetD, h3, h4, h5, h6, h7, h8, h9]
  · unfold suggest_recipes filter_food_items
    simp [h1, h2, h4, h5, dictGetD, h3, pyFalsy, lookupKv]

/-- Witness for C7: all three parts at concrete inputs. -/
theorem absent_keys_default_to_empty_list_witness :
    dictGetD (.obj []) "food_items" (.arr []) = .ok (.arr []) ∧
    suggest_recipes (.response 200 (envFor wcOnlyFood))
        (.response 200 (envFor wcBareRecipe)) =
      (.ok ⟨.arr [.str "rice"], .arr [], .arr [], .arr []⟩, 1) ∧
    suggest_recipes (.response 200 (envFor wcNoFoodKey)) .timeout =
      suggest_recipes (.response 200 (envFor wcExplicitEmptyFood)) .timeout :=
  ⟨absent_keys_default_to_empty_list.1 [] "food_items" (.arr []) rfl,
    absent_keys_default_to_empty_list.2.1 (.response 200 (envFor wcOnlyFood))
      (.response 200 (envFor wcBareRecipe)) wcOnlyFood
      [("food_items", .arr [.str "rice"])] (.arr [.str "rice"]) wcBareRecipe
      [("note", .str "none")] rfl rfl rfl rfl rfl rfl rfl rfl rfl,
    absent_keys_default_to_empty_list.2.2 (.response 200 (envFor wcNoFoodKey))
      (.response 200 (envFor wcExplicitEmptyFood)) .timeout wcNoFoodKey
      wcExplicitEmptyFood [("non_food_items", .arr [.str "soap"])]
      rfl rfl rfl rfl rfl⟩

/-- Claim C8: on the success path the endpoint's response is exactly the
four-field record whose `filtered_food_items` and `non_food_items` are the
classification object's lists unchanged, and whose recipe fields are the
recipe object's lists (with the empty-list default). -/
theorem suggest_recipes_passthrough (o1 o2 : HttpxResult) (c1 c2 : String)
    (kvs rkvs : List (String × JValue)) (fv nf : JValue)
    (h1 : groq_chat o1 = .ok c1) (h2 : extract_json c1 = .ok (.obj kvs))
    (h3 : lookupKv kvs "food_items" = some fv) (h4 : pyFalsy fv = false)
    (h5 : lookupKv kvs "non_food_items" = some nf)
    (h6 : groq_chat o2 = .ok c2) (h7 : extract_json c2 = .ok (.obj rkvs)) :
    suggest_recipes o1 o2 =
      (.ok ⟨fv, nf, (lookupKv rkvs "recipes").getD (.arr []),
        (lookupKv rkvs "additional_ingredients").getD (.arr [])⟩, 1) := by
  unfold suggest_recipes filter_food_items get_recipes
  simp [h1, h2, dictGetD, h3, h4, h5, h6, h7]

/-- Witness for C8 at concrete inputs. -/
theorem suggest_recipes_passthrough_witness :
    suggest_recipes (.response 200 (envFor wcGoodFood))
        (.response 200 (envFor wcRecipe)) =
      (.ok ⟨.arr [.str "rice"], .arr [.str "soap"], .arr [.str "fried rice"],
        .arr [.str "salt"]⟩, 1) :=
  suggest_recipes_passthrough (.response 200 (envFor wcGoodFood))
    (.response 200 (envFor wcRecipe)) wcGoodFood wcRecipe
    [("food_items", .arr [.str "rice"]), ("non_food_items", .arr [.str "soap"])]
    [("recipes", .arr [.str "fried rice"]),
      ("additional_ingredients", .arr [.str "salt"])]
    (.arr [.str "rice"]) (.arr [.str "soap"]) rfl rfl rfl rfl rfl rfl rfl

/-- Claim C3 (counterexample): the input `[]` contains no brace characters
at all, yet `extract_json` returns a value (the empty array) instead of
signalling a malformed-response error — the whole-text parse succeeds on
brace-free JSON. -/
theorem extract_json_no_brace_but_succeeds :
    (∀ c ∈ "[]".data, c ≠ lbrace ∧ c ≠ rbrace) ∧
    extract_json "[]" = .ok (.arr []) :=
  ⟨by decide, rfl⟩

/-! ### Number round trip -/

theorem digitChar_isDigit (m : Nat) (h : m < 10) :
    isDigitC (Char.ofNat (48 + m)) = true := by
  interval_cases m <;> decide

theorem digitChar_val (m : Nat) (h : m < 10) :
    digitVal (Char.ofNat (48 + m)) = m := by
  interval_cases m <;> decide

theorem digitsToNat_snoc (l : List Char) (c : Char) :
    digitsToNat (l ++ [c]) = digitsToNat l * 10 + digitVal c := by
  simp [digitsToNat, List.foldl_append]

theorem natDigitsAux_spec (fuel : Nat) : ∀ n, n ≤ fuel →
    (∀ c ∈ natDigitsAux fuel n, isDigitC c = true) ∧
    digitsToNat (natDigitsAux fuel n) = n ∧
    natDigitsAux fuel n ≠ [] ∧
    (1 ≤ n → (natDigitsAux fuel n).head? ≠ some '0') := by
  induction fuel with
  | zero =>
    intro n hn
    interval_cases n
    decide
  | succ fuel ih =>
    intro n hn
    by_cases h10 : n < 10
    · simp only [natDigitsAux, if_pos h10]
      interval_cases n <;> decide
    · push_neg at h10
      have hdiv : n / 10 < n := Nat.div_lt_self (by omega) (by omega)
      obtain ⟨hd, hv, hne, hh⟩ := ih (n / 10) (by omega)
      simp only [natDigitsAux, if_neg (by omega : ¬ n < 10)]
      refine ⟨?_, ?_, by simp, ?_⟩
      · intro c hc
        rcases List.mem_append.mp hc with hc | hc
        · exact hd c hc
        · rcases List.mem_singleton.mp hc with rfl
          exact digitChar_isDigit _ (Nat.mod_lt _ (by omega))
      · rw [digitsToNat_snoc, hv, digitChar_val _ (Nat.mod_lt _ (by omega))]
        omega
      · intro _
        rw [List.head?_append_of_ne_nil _ hne]
        exact hh (by omega)

theorem natDigits_spec (n : Nat) :
    (∀ c ∈ natDigits n, isDigitC c = true) ∧
    digitsToNat (natDigits n) = n ∧
    natDigits n ≠ [] ∧
    leadZero (natDigits n) = false := by
  obtain ⟨hd, hv, hne, hh⟩ := natDigitsAux_spec n n le_rfl
  refine ⟨hd, hv, hne, ?_⟩
  by_cases h10 : n < 10
  · unfold natDigits
    interval_cases n <;> decide
  · rcases hl : natDigits n with _ | ⟨c, t⟩
    · exact absurd hl hne
    · have hc : c ≠ '0' := by
        have h2 := hh (by omega)
        rw [show natDigitsAux n n = natDigits n from rfl, hl] at h2
        simpa using h2
      cases t <;> simp [leadZero, hc]

theorem takeDigits_append (ds rest : List Char)
    (hd : ∀ c ∈ ds, isDigitC c = true)
    (hr : ∀ c, rest.head? = some c → isDigitC c = false) :
    takeDigits (ds ++ rest) = (ds, rest) := by
  induction ds with
  | nil =>
    cases rest with
    | nil => rfl
    | cons c t => simp [takeDigits, hr c rfl]
  | cons d ds ih =>
    have hdd : isDigitC d = true := hd d (by simp)
    simp only [List.cons_append, takeDigits, hdd, if_pos, List.append_eq]
    rw [ih (fun c hc => hd c (by simp [hc]))]

theorem sepOk_head_not_digit (rest : List Char) (hr : sepOk rest = true) :
    ∀ c, rest.head? = some c → isDigitC c = false := by
  intro c hc
  cases rest with
  | nil => simp at hc
  | cons r t =>
    simp at hc
    subst hc
    simp [sepOk] at hr
    exact hr.1.1.1

theorem parseNumNat_digits (n : Nat) (rest : List Char) (hr : sepOk rest = true) :
    parseNumNat (natDigits n ++ rest) = some (n, rest) := by
  obtain ⟨hd, hv, hne, hz⟩ := natDigits_spec n
  have ht := takeDigits_append (natDigits n) rest hd (sepOk_head_not_digit rest hr)
  have hfc : floatCont rest = false := by
    cases rest with
    | nil => rfl
    | cons r t =>
      simp [sepOk] at hr
      obtain ⟨⟨⟨h1, h2⟩, h3⟩, h4⟩ := hr
      simp [floatCont, h2, h3, h4]
  simp [parseNumNat, ht, hne, hz, hfc, hv]

theorem parseNum_intChars (n : Int) (rest : List Char) (hr : sepOk rest = true) :
    parseNum (intChars n ++ rest) = some (n, rest) := by
  by_cases hneg : n < 0
  · simp only [intChars, if_pos hneg, List.cons_append, parseNum, if_pos rfl]
    rw [parseNumNat_digits _ _ hr]
    have h2 : -((n.natAbs : Nat) : Int) = n := by omega
    exact congrArg (fun z => some (z, rest)) h2
  · have hser : intChars n = natDigits n.natAbs := by simp [intChars, hneg]
    rcases hl : natDigits n.natAbs with _ | ⟨c, t⟩
    · exact absurd hl (natDigits_spec n.natAbs).2.2.1
    · have hcd : isDigitC c = true := (natDigits_spec n.natAbs).1 c (by simp [hl])
      have hcm : ¬ c = '-' := by
        intro h
        subst h
        exact absurd hcd (by decide)
      rw [hser, hl]
      simp only [List.cons_append, parseNum, if_neg hcm]
      rw [show c :: (t ++ rest) = (c :: t) ++ rest from rfl, ← hl,
        parseNumNat_digits _ _ hr]
      have h2 : ((n.natAbs : Nat) : Int) = n := by omega
      exact congrArg (fun z => some (z, rest)) h2

/-! ### String round trip -/

theorem hexVal_hexDigit (m : Nat) (h : m < 16) : hexVal? (hexDigit m) = some m := by
  interval_cases m <;> decide

theorem parseStrAux_close (a r : List Char) :
    parseStrAux a ('"' :: r) = some (String.mk a.reverse, r) := by
  rw [parseStrAux.eq_def]
  simp

theorem parseStrAux_esc_quote (a r : List Char) :
    parseStrAux a ('\\' :: '"' :: r) = parseStrAux ('"' :: a) r := by
  rw [parseStrAux.eq_def]
  simp

theorem parseStrAux_esc_back (a r : List Char) :
    parseStrAux a ('\\' :: '\\' :: r) = parseStrAux ('\\' :: a) r := by
  rw [parseStrAux.eq_def]
  simp

theorem parseStrAux_esc_n (a r : List Char) :
    parseStrAux a ('\\' :: 'n' :: r) = parseStrAux ('\n' :: a) r := by
  rw [parseStrAux.eq_def]
  simp

theorem parseStrAux_esc_r (a r : List Char) :
    parseStrAux a ('\\' :: 'r' :: r) = parseStrAux ('\r' :: a) r := by
  rw [parseStrAux.eq_def]
  simp

theorem parseStrAux_esc_t (a r : List Char) :
    parseStrAux a ('\\' :: 't' :: r) = parseStrAux ('\t' :: a) r := by
  rw [parseStrAux.eq_def]
  simp

theorem parseStrAux_esc_b (a r : List Char) :
    parseStrAux a ('\\' :: 'b' :: r) = parseStrAux ('\x08' :: a) r := by
  rw [parseStrAux.eq_def]
  simp

theorem parseStrAux_esc_f (a r : List Char) :
    parseStrAux a ('\\' :: 'f' :: r) = parseStrAux ('\x0c' :: a) r := by
  rw [parseStrAux.eq_def]
  simp

theorem parseStrAux_u_step (a r : List Char) (c1 c2 c3 c4 : Char)
    (v1 v2 v3 v4 : Nat)
    (e1 : hexVal? c1 = some v1) (e2 : hexVal? c2 = some v2)
    (e3 : hexVal? c3 = some v3) (e4 : hexVal? c4 = some v4) :
    parseStrAux a ('\\' :: 'u' :: c1 :: c2 :: c3 :: c4 :: r) =
      parseStrAux (Char.ofNat (v1 * 4096 + v2 * 256 + v3 * 16 + v4) :: a) r := by
  rw [parseStrAux.eq_def]
  simp [e1, e2, e3, e4]

theorem parseStrAux_plain (a r : List Char) (c : Char)
    (h1 : ¬ c = '"') (h2 : ¬ c = '\\') (h8 : ¬ c.toNat < 32) :
    parseStrAux a (c :: r) = parseStrAux (c :: a) r := by
  rw [parseStrAux.eq_def]
  simp [h1, h2, h8]

theorem parseStrAux_round (l : List Char) : ∀ acc rest,
    parseStrAux acc (l.flatMap escapeChar ++ '"' :: rest) =
      some (String.mk (acc.reverse ++ l), rest) := by
  induction l with
  | nil =>
    intro acc rest
    rw [List.flatMap_nil, List.nil_append, parseStrAux_close]
    simp
  | cons c l ih =>
    intro acc rest
    simp only [List.flatMap_cons, List.append_assoc]
    by_cases h1 : c = '"'
    · subst h1
      rw [show escapeChar '"' = ['\\', '"'] from rfl, List.cons_append,
        List.cons_append, List.nil_append, parseStrAux_esc_quote, ih]
      simp
    by_cases h2 : c = '\\'
    · subst h2
      rw [show escapeChar '\\' = ['\\', '\\'] from rfl, List.cons_append,
        List.cons_append, List.nil_append, parseStrAux_esc_back, ih]
      simp
    by_cases h3 : c = '\n'
    · subst h3
      rw [show escapeChar '\n' = ['\\', 'n'] from rfl, List.cons_append,
        List.cons_append, List.nil_append, parseStrAux_esc_n, ih]
      simp
    by_cases h4 : c = '\r'
    · subst h4
      rw [show escapeChar '\r' = ['\\', 'r'] from rfl, List.cons_append,
        List.cons_append, List.nil_append, parseStrAux_esc_r, ih]
      simp
    by_cases h5 : c = '\t'
    · subst h5
      rw [show escapeChar '\t' = ['\\', 't'] from rfl, List.cons_append,
        List.cons_append, List.nil_append, parseStrAux_esc_t, ih]
      simp
    by_cases h6 : c = '\x08'
    · subst h6
      rw [show escapeChar '\x08' = ['\\', 'b'] from rfl, List.cons_append,
        List.cons_append, List.nil_append, parseStrAux_esc_b, ih]
      simp
    by_cases h7 : c = '\x0c'
    · subst h7
      rw [show escapeChar '\x0c' = ['\\', 'f'] from rfl, List.cons_append,
        List.cons_append, List.nil_append, parseStrAux_esc_f, ih]
      simp
    by_cases h8 : c.toNat < 32
    · have he : escapeChar c =
          ['\\', 'u', '0', '0', hexDigit (c.toNat / 16), hexDigit (c.toNat % 16)] := by
        simp [escapeChar, h1, h2, h3, h4, h5, h6, h7, h8]
      rw [he]
      simp only [List.cons_append, List.nil_append]
      rw [parseStrAux_u_step _ _ _ _ _ _ 0 0 (c.toNat / 16) (c.toNat % 16)
        (by decide) (by decide)
        (hexVal_hexDigit (c.toNat / 16) (by omega))
        (hexVal_hexDigit (c.toNat % 16) (by omega))]
      rw [show 0 * 4096 + 0 * 256 + c.toNat / 16 * 16 + c.toNat % 16 = c.toNat by omega]
      rw [Char.ofNat_toNat, ih]
      simp
    · have he : escapeChar c = [c] := by
        simp [escapeChar, h1, h2, h3, h4, h5, h6, h7, h8]
      rw [he, List.cons_append, List.nil_append, parseStrAux_plain _ _ _ h1 h2 h8, ih]
      simp

theorem parseStr_serStr (s : String) (rest : List Char) :
    parseStrAux [] (s.data.flatMap escapeChar ++ '"' :: rest) = some (s, rest) := by
  cases s with
  | mk d =>
    rw [parseStrAux_round]
    simp

/-! ### Parser dispatch lemmas -/

theorem skipWs_cons_not (c : Char) (l : List Char) (h : isWs c = false) :
    skipWs (c :: l) = c :: l := by
  simp [skipWs, h]

theorem skipWs_app (ws l : List Char) (h : ∀ c ∈ ws, isWs c = true) :
    skipWs (ws ++ l) = skipWs l := by
  induction ws with
  | nil => rfl
  | cons c t ih =>
    simp only [List.cons_append, skipWs, h c (by simp), if_pos]
    exact ih (fun d hd => h d (by simp [hd]))

theorem skipWs_ne_nil (l : List Char) (c : Char) (hc : c ∈ l)
    (h : isWs c = false) : skipWs l ≠ [] := by
  induction l with
  | nil => simp at hc
  | cons d t ih =>
    rcases List.mem_cons.mp hc with rfl | hc
    · simp [skipWs, h]
    · by_cases hd : isWs d
      · simpa [skipWs, hd] using ih hc
      · simp [skipWs, hd]

theorem isDigitC_ne (c : Char) (h : isDigitC c = true) :
    isWs c = false ∧ ¬ c = '"' ∧ ¬ c = lbrace ∧ ¬ c = '[' ∧ ¬ c = ']' ∧
      ¬ c = rbrace ∧ ¬ c = ',' ∧ ¬ c = 'n' ∧ ¬ c = 't' ∧ ¬ c = 'f' ∧
      ¬ c = '-' ∧ ¬ c = btick ∧ ¬ c = '\n' := by
  have w1 : ¬ c = ' ' := fun e => absurd (e ▸ h) (by decide)
  have w2 : ¬ c = '\t' := fun e => absurd (e ▸ h) (by decide)
  have w3 : ¬ c = '\n' := fun e => absurd (e ▸ h) (by decide)
  have w4 : ¬ c = '\r' := fun e => absurd (e ▸ h) (by decide)
  refine ⟨by simp [isWs, w1, w2, w3, w4], ?_, ?_, ?_, ?_, ?_, ?_, ?_, ?_, ?_, ?_, ?_, w3⟩
  all_goals exact fun e => absurd (e ▸ h) (by decide)

theorem parseVal_succ_quote (fuel : Nat) (rest : List Char) :
    parseVal (fuel + 1) ('"' :: rest) =
      (parseStrAux [] rest).map (fun p => (JValue.str p.1, p.2)) := rfl

theorem parseVal_succ_obj (fuel : Nat) (rest : List Char) :
    parseVal (fuel + 1) (lbrace :: rest) = parseMembers fuel rest := rfl

theorem parseVal_succ_arr (fuel : Nat) (rest : List Char) :
    parseVal (fuel + 1) ('[' :: rest) = parseItems fuel rest := rfl

theorem parseVal_succ_null (fuel : Nat) (rest : List Char) :
    parseVal (fuel + 1) ('n' :: rest) =
      (stripP ['u', 'l', 'l'] rest).map (fun r => (JValue.null, r)) := rfl

theorem parseVal_succ_true (fuel : Nat) (rest : List Char) :
    parseVal (fuel + 1) ('t' :: rest) =
      (stripP ['r', 'u', 'e'] rest).map (fun r => (JValue.bool true, r)) := rfl

theorem parseVal_succ_false (fuel : Nat) (rest : List Char) :
    parseVal (fuel + 1) ('f' :: rest) =
      (stripP ['a', 'l', 's', 'e'] rest).map (fun r => (JValue.bool false, r)) := rfl

theorem parseVal_succ_neg (fuel : Nat) (rest : List Char) :
    parseVal (fuel + 1) ('-' :: rest) =
      (parseNum ('-' :: rest)).map (fun p => (JValue.num p.1, p.2)) := rfl

theorem parseVal_succ_digit (fuel : Nat) (rest : List Char) (c : Char)
    (h : isDigitC c = true) :
    parseVal (fuel + 1) (c :: rest) =
      (parseNum (c :: rest)).map (fun p => (JValue.num p.1, p.2)) := by
  obtain ⟨n1, n2, n3, n4, n5, n6, n7, n8, n9, n10, n11, n12, n13⟩ := isDigitC_ne c h
  rw [parseVal.eq_def]
  dsimp only
  rw [skipWs_cons_not _ _ n1]
  simp [n2, n3, n4, n8, n9, n10, n11, h]

theorem parseItems_succ_close (fuel : Nat) (rest : List Char) :
    parseItems (fuel + 1) (']' :: rest) = some (JValue.arr [], rest) := rfl

theorem parseItems_succ_step (fuel : Nat) (c : Char) (rest : List Char)
    (hws : isWs c = false) (hnb : ¬ c = ']') :
    parseItems (fuel + 1) (c :: rest) =
      match parseVal fuel (c :: rest) with
      | none => none
      | some (v, r1) =>
        match parseMoreItems fuel r1 with
        | none => none
        | some (xs, r2) => some (JValue.arr (v :: xs), r2) := by
  rw [parseItems.eq_def]
  dsimp only
  rw [skipWs_cons_not _ _ hws]
  simp [hnb]

theorem parseMoreItems_succ_close (fuel : Nat) (rest : List Char) :
    parseMoreItems (fuel + 1) (']' :: rest) = some ([], rest) := rfl

theorem parseMoreItems_succ_comma (fuel : Nat) (rest : List Char) :
    parseMoreItems (fuel + 1) (',' :: rest) =
      match parseVal fuel rest with
      | none => none
      | some (v, r1) =>
        match parseMoreItems fuel r1 with
        | none => none
        | some (xs, r2) => some (v :: xs, r2) := rfl

theorem parseMembers_succ_close (fuel : Nat) (rest : List Char) :
    parseMembers (fuel + 1) (rbrace :: rest) = some (JValue.obj [], rest) := rfl

theorem parseMembers_succ_key (fuel : Nat) (rest : List Char) :
    parseMembers (fuel + 1) ('"' :: rest) =
      match parseStrAux [] rest with
      | none => none
      | some (k, r1) =>
        match skipWs r1 with
        | [] => none
        | c2 :: r2 =>
          if c2 = ':' then
            match parseVal fuel r2 with
            | none => none
            | some (v, r3) =>
              match parseMoreMembers fuel r3 with
              | none => none
              | some (kvs, r4) => some (JValue.obj (dedupPairs ((k, v) :: kvs)), r4)
          else none := rfl

theorem parseMoreMembers_succ_close (fuel : Nat) (rest : List Char) :
    parseMoreMembers (fuel + 1) (rbrace :: rest) = some ([], rest) := rfl

theorem parseMoreMembers_succ_comma (fuel : Nat) (rest : List Char) :
    parseMoreMembers (fuel + 1) (',' :: rest) =
      match skipWs rest with
      | [] => none
      | c1 :: r1 =>
        if c1 = '"' then
          match parseStrAux [] r1 with
          | none => none
          | some (k, r2) =>
            match skipWs r2 with
            | [] => none
            | c2 :: r3 =>
              if c2 = ':' then
                match parseVal fuel r3 with
                | none => none
                | some (v, r4) =>
                  match parseMoreMembers fuel r4 with
                  | none => none
                  | some (kvs, r5) => some ((k, v) :: kvs, r5)
              else none
        else none := rfl

/-! ### Serializer facts -/

theorem ser_null_eq : ser .null = ['n', 'u', 'l', 'l'] := rfl

theorem ser_true_eq : ser (.bool true) = ['t', 'r', 'u', 'e'] := rfl

theorem ser_false_eq : ser (.bool false) = ['f', 'a', 'l', 's', 'e'] := rfl

theorem ser_num_eq (n : Int) : ser (.num n) = intChars n := rfl

theorem ser_str_eq (s : String) :
    ser (.str s) = '"' :: s.data.flatMap escapeChar ++ ['"'] := rfl

theorem ser_arr_nil_eq : ser (.arr []) = ['[', ']'] := rfl

theorem ser_arr_cons_eq (x : JValue) (xs : List JValue) :
    ser (.arr (x :: xs)) = '[' :: (ser x ++ serArrTail xs ++ [']']) := rfl

theorem ser_obj_nil_eq : ser (.obj []) = [lbrace, rbrace] := rfl

theorem ser_obj_cons_eq (kv : String × JValue) (kvs : List (String × JValue)) :
    ser (.obj (kv :: kvs)) = lbrace :: (serPair kv ++ serObjTail kvs ++ [rbrace]) := rfl

theorem serArrTail_cons_eq (x : JValue) (xs : List JValue) :
    serArrTail (x :: xs) = ',' :: ' ' :: (ser x ++ serArrTail xs) := rfl

theorem serPair_eq (k : String) (v : JValue) :
    serPair (k, v) = ('"' :: k.data.flatMap escapeChar ++ ['"']) ++ ':' :: ' ' :: ser v := by
  show serStr k ++ ':' :: ' ' :: ser v = _
  rw [serStr]

theorem serObjTail_cons_eq (kv : String × JValue) (kvs : List (String × JValue)) :
    serObjTail (kv :: kvs) = ',' :: ' ' :: (serPair kv ++ serObjTail kvs) := rfl

theorem sizeJ_pos (v : JValue) : 1 ≤ sizeJ v := by
  cases v <;> simp [sizeJ] <;> omega

theorem intChars_head (n : Int) (c : Char) (t : List Char)
    (h : intChars n = c :: t) : c = '-' ∨ isDigitC c = true := by
  by_cases hn : n < 0
  · unfold intChars at h
    rw [if_pos hn] at h
    injection h with h1 _
    exact Or.inl h1.symm
  · unfold intChars at h
    rw [if_neg hn] at h
    refine Or.inr ((natDigits_spec n.natAbs).1 c ?_)
    rw [h]
    simp

theorem intChars_ne_nil (n : Int) : intChars n ≠ [] := by
  unfold intChars
  split
  · simp
  · exact (natDigits_spec n.natAbs).2.2.1

theorem ser_head_facts (v : JValue) : ∀ c t, ser v = c :: t →
    isWs c = false ∧ ¬ c = ']' ∧ ¬ c = rbrace ∧ ¬ c = ',' ∧ ¬ c = btick := by
  intro c t h
  cases v with
  | null => rw [ser_null_eq] at h; injection h with h1 _; subst h1; exact ⟨rfl, by decide, by decide, by decide, by decide⟩
  | bool b =>
    cases b
    · rw [ser_false_eq] at h; injection h with h1 _; subst h1; exact ⟨rfl, by decide, by decide, by decide, by decide⟩
    · rw [ser_true_eq] at h; injection h with h1 _; subst h1; exact ⟨rfl, by decide, by decide, by decide, by decide⟩
  | num n =>
    rw [ser_num_eq] at h
    rcases intChars_head n c t h with rfl | hd
    · exact ⟨rfl, by decide, by decide, by decide, by decide⟩
    · obtain ⟨w, _, _, _, h5, h6, h7, _, _, _, _, h12, _⟩ := isDigitC_ne c hd
      exact ⟨w, h5, h6, h7, h12⟩
  | str s => rw [ser_str_eq] at h; injection h with h1 _; subst h1; exact ⟨rfl, by decide, by decide, by decide, by decide⟩
  | arr xs =>
    cases xs with
    | nil => rw [ser_arr_nil_eq] at h; injection h with h1 _; subst h1; exact ⟨rfl, by decide, by decide, by decide, by decide⟩
    | cons x xs => rw [ser_arr_cons_eq] at h; injection h with h1 _; subst h1; exact ⟨rfl, by decide, by decide, by decide, by decide⟩
  | obj kvs =>
    cases kvs with
    | nil => rw [ser_obj_nil_eq] at h; injection h with h1 _; subst h1; exact ⟨rfl, by decide, by decide, by decide, by decide⟩
    | cons kv kvs => rw [ser_obj_cons_eq] at h; injection h with h1 _; subst h1; exact ⟨rfl, by decide, by decide, by decide, by decide⟩

theorem ser_ne_nil (v : JValue) : ser v ≠ [] := by
  cases v with
  | null => simp [ser_null_eq]
  | bool b => cases b <;> simp [ser_true_eq, ser_false_eq]
  | num n => rw [ser_num_eq]; exact intChars_ne_nil n
  | str s => simp [ser_str_eq]
  | arr xs => cases xs <;> simp [ser_arr_nil_eq, ser_arr_cons_eq]
  | obj kvs => cases kvs <;> simp [ser_obj_nil_eq, ser_obj_cons_eq]

theorem sepOk_arrTail (xs : List JValue) (rest : List Char) :
    sepOk (serArrTail xs ++ ']' :: rest) = true := by
  cases xs with
  | nil => rfl
  | cons x xs => rfl

theorem sepOk_objTail (kvs : List (String × JValue)) (rest : List Char) :
    sepOk (serObjTail kvs ++ rbrace :: rest) = true := by
  cases kvs with
  | nil => rfl
  | cons kv kvs => rfl

theorem numOk_of_sepOk (v : JValue) (rest : List Char) (h : sepOk rest = true) :
    numOk v rest = true := by
  cases v <;> simp [numOk, h]

theorem parseVal_space (f : Nat) (l : List Char) :
    parseVal f (' ' :: l) = parseVal f l := by
  cases f with
  | zero => rfl
  | succ f =>
    rw [parseVal.eq_def, parseVal.eq_def]
    dsimp only
    rw [show skipWs (' ' :: l) = skipWs l from by simp [skipWs, isWs]]

theorem strNodup_cons (k : String) (ks : List String)
    (h : strNodup (k :: ks) = true) :
    (∀ k2 ∈ ks, k2 ≠ k) ∧ strNodup ks = true := by
  have h' : (!(ks.contains k) && strNodup ks) = true := h
  rw [Bool.and_eq_true, Bool.not_eq_true'] at h'
  obtain ⟨h1, h2⟩ := h'
  refine ⟨fun k2 hk2 e => ?_, h2⟩
  subst e
  have hc : ks.elem k2 = true := List.elem_eq_true_of_mem hk2
  rw [show ks.contains k2 = ks.elem k2 from rfl, hc] at h1
  cases h1

theorem insertKV_fresh (acc : List (String × JValue)) (k : String) (v : JValue)
    (h : ∀ kv ∈ acc, kv.1 ≠ k) : insertKV acc k v = acc ++ [(k, v)] := by
  induction acc with
  | nil => rfl
  | cons kv t ih =>
    cases kv with
    | mk k0 v0 =>
      have hk : k0 ≠ k := h (k0, v0) (by simp)
      simp only [insertKV, if_neg hk]
      rw [ih (fun kv2 h2 => h kv2 (by simp [h2]))]
      simp

theorem foldl_insertKV (l : List (String × JValue)) : ∀ acc,
    strNodup (kvKeys l) = true →
    (∀ kv ∈ acc, ∀ kv2 ∈ l, kv.1 ≠ kv2.1) →
    l.foldl (fun a p => insertKV a p.1 p.2) acc = acc ++ l := by
  induction l with
  | nil =>
    intro acc _ _
    simp
  | cons p l ih =>
    intro acc h hdisj
    have hkeys : kvKeys (p :: l) = p.1 :: kvKeys l := rfl
    rw [hkeys] at h
    obtain ⟨hfreshl, hnd⟩ := strNodup_cons _ _ h
    simp only [List.foldl_cons]
    rw [insertKV_fresh acc p.1 p.2 (fun kv hkv => hdisj kv hkv p (by simp))]
    have hstep := ih (acc ++ [(p.1, p.2)]) hnd ?_
    · rw [hstep]
      simp
    · intro kv hkv kv2 hkv2
      rcases List.mem_append.mp hkv with hkv | hkv
      · exact hdisj kv hkv kv2 (by simp [hkv2])
      · rcases List.mem_singleton.mp hkv with rfl
        exact fun e => hfreshl kv2.1 (List.mem_map_of_mem Prod.fst hkv2) e.symm

theorem dedupPairs_nodup (l : List (String × JValue))
    (h : strNodup (kvKeys l) = true) : dedupPairs l = l := by
  unfold dedupPairs
  rw [foldl_insertKV l [] h (by simp)]
  simp

/-! ### The parser inverts the serializer -/

theorem bandE {a b : Bool} (h : (a && b) = true) : a = true ∧ b = true := by
  simp at h
  exact h

theorem parseVal_succ_intChars (fuel : Nat) (n : Int) (rest : List Char) :
    parseVal (fuel + 1) (intChars n ++ rest) =
      (parseNum (intChars n ++ rest)).map (fun p => (JValue.num p.1, p.2)) := by
  rcases hl : intChars n with _ | ⟨c, t⟩
  · exact absurd hl (intChars_ne_nil n)
  rw [List.cons_append]
  rcases intChars_head n c t hl with rfl | hd
  · rw [parseVal_succ_neg]
  · rw [parseVal_succ_digit _ _ _ hd]

theorem parse_ser_round (fuel : Nat) :
    (∀ v rest, jwf v = true → sizeJ v ≤ fuel → numOk v rest = true →
      parseVal fuel (ser v ++ rest) = some (v, rest)) ∧
    (∀ xs rest, jwfList xs = true → sizeLJ xs + 1 ≤ fuel →
      parseMoreItems fuel (serArrTail xs ++ ']' :: rest) = some (xs, rest)) ∧
    (∀ kvs rest, jwfPairs kvs = true → sizePJ kvs + 1 ≤ fuel →
      parseMoreMembers fuel (serObjTail kvs ++ rbrace :: rest) = some (kvs, rest)) := by
  induction fuel using Nat.strong_induction_on with
  | _ fuel ih =>
  rcases fuel with _ | g
  · refine ⟨fun v rest _ hs _ => absurd hs (by have := sizeJ_pos v; omega),
      fun xs rest _ hs => absurd hs (by omega),
      fun kvs rest _ hs => absurd hs (by omega)⟩
  refine ⟨?_, ?_, ?_⟩
  · -- values
    intro v rest hwf hs hnum
    cases v with
    | null =>
      rw [ser_null_eq,
        show (['n', 'u', 'l', 'l'] : List Char) ++ rest = 'n' :: ('u' :: 'l' :: 'l' :: rest) from rfl,
        parseVal_succ_null]
      rfl
    | bool b =>
      cases b
      · rw [ser_false_eq,
          show (['f', 'a', 'l', 's', 'e'] : List Char) ++ rest =
            'f' :: ('a' :: 'l' :: 's' :: 'e' :: rest) from rfl,
          parseVal_succ_false]
        rfl
      · rw [ser_true_eq,
          show (['t', 'r', 'u', 'e'] : List Char) ++ rest =
            't' :: ('r' :: 'u' :: 'e' :: rest) from rfl,
          parseVal_succ_true]
        rfl
    | num n =>
      have hsep : sepOk rest = true := hnum
      rw [ser_num_eq, parseVal_succ_intChars, parseNum_intChars n rest hsep]
      rfl
    | str s =>
      rw [ser_str_eq]
      simp only [List.cons_append, List.append_assoc, List.singleton_append]
      rw [parseVal_succ_quote, parseStr_serStr]
      rfl
    | arr xs =>
      cases xs with
      | nil =>
        have hg : (2 : Nat) ≤ g + 1 := hs
        obtain ⟨g2, rfl⟩ : ∃ g2, g = g2 + 1 := ⟨g - 1, by omega⟩
        rw [ser_arr_nil_eq,
          show (['[', ']'] : List Char) ++ rest = '[' :: (']' :: rest) from rfl,
          parseVal_succ_arr, parseItems_succ_close]
      | cons x xs =>
        have hwf2 := bandE (hwf : (jwf x && jwfList xs) = true)
        have hsz : 2 + (1 + sizeJ x + sizeLJ xs) ≤ g + 1 := hs
        have hx1 := sizeJ_pos x
        obtain ⟨g2, rfl⟩ : ∃ g2, g = g2 + 1 := ⟨g - 1, by omega⟩
        rw [ser_arr_cons_eq, List.cons_append, parseVal_succ_arr,
          List.append_assoc, List.append_assoc, List.singleton_append]
        have hval := (ih g2 (by omega)).1 x (serArrTail xs ++ ']' :: rest)
          hwf2.1 (by omega) (numOk_of_sepOk _ _ (sepOk_arrTail xs rest))
        have hmore := (ih g2 (by omega)).2.1 xs rest hwf2.2 (by omega)
        rcases hl : ser x with _ | ⟨c, t⟩
        · exact absurd hl (ser_ne_nil x)
        obtain ⟨w1, w2, _, _, _⟩ := ser_head_facts x c t hl
        rw [hl] at hval
        rw [List.cons_append] at hval
        rw [List.cons_append, parseItems_succ_step g2 c _ w1 w2, hval]
        dsimp only
        rw [hmore]
    | obj kvs =>
      cases kvs with
      | nil =>
        have hg : (2 : Nat) ≤ g + 1 := hs
        obtain ⟨g2, rfl⟩ : ∃ g2, g = g2 + 1 := ⟨g - 1, by omega⟩
        rw [ser_obj_nil_eq,
          show ([lbrace, rbrace] : List Char) ++ rest = lbrace :: (rbrace :: rest) from rfl,
          parseVal_succ_obj, parseMembers_succ_close]
      | cons kv kvs =>
        obtain ⟨k, v0⟩ := kv
        have hwf2 := bandE
          (hwf : (strNodup (kvKeys ((k, v0) :: kvs)) && jwfPairs ((k, v0) :: kvs)) = true)
        have hvp := bandE (hwf2.2 : (jwf v0 && jwfPairs kvs) = true)
        have hsz : 2 + (1 + sizeJ v0 + sizePJ kvs) ≤ g + 1 := hs
        have hv1 := sizeJ_pos v0
        obtain ⟨g2, rfl⟩ : ∃ g2, g = g2 + 1 := ⟨g - 1, by omega⟩
        rw [ser_obj_cons_eq, List.cons_append, parseVal_succ_obj, serPair_eq]
        simp only [List.cons_append, List.append_assoc, List.singleton_append,
          List.nil_append]
        rw [parseMembers_succ_key, parseStr_serStr]
        dsimp only
        rw [skipWs_cons_not ':' _ (by decide)]
        dsimp only
        rw [if_pos rfl]
        have hval := (ih g2 (by omega)).1 v0 (serObjTail kvs ++ rbrace :: rest)
          hvp.1 (by omega) (numOk_of_sepOk _ _ (sepOk_objTail kvs rest))
        have hmore := (ih g2 (by omega)).2.2 kvs rest hvp.2 (by omega)
        rw [parseVal_space, hval]
        dsimp only
        rw [hmore]
        dsimp only
        rw [dedupPairs_nodup _ hwf2.1]
  · -- array tails
    intro xs rest hwf hsz
    rcases xs with _ | ⟨y, ys⟩
    · rw [show serArrTail [] ++ ']' :: rest = ']' :: rest from rfl,
        parseMoreItems_succ_close]
    · have hwf2 := bandE (hwf : (jwf y && jwfList ys) = true)
      have hsz2 : (1 + sizeJ y + sizeLJ ys) + 1 ≤ g + 1 := hsz
      have hy1 := sizeJ_pos y
      rw [serArrTail_cons_eq]
      simp only [List.cons_append, List.append_assoc]
      rw [parseMoreItems_succ_comma]
      have hval := (ih g (by omega)).1 y (serArrTail ys ++ ']' :: rest)
        hwf2.1 (by omega) (numOk_of_sepOk _ _ (sepOk_arrTail ys rest))
      have hmore := (ih g (by omega)).2.1 ys rest hwf2.2 (by omega)
      rw [parseVal_space, hval]
      dsimp only
      rw [hmore]
  · -- object tails
    intro kvs rest hwf hsz
    rcases kvs with _ | ⟨⟨k, v0⟩, kvs⟩
    · rw [show serObjTail [] ++ rbrace :: rest = rbrace :: rest from rfl,
        parseMoreMembers_succ_close]
    · have hvp := bandE (hwf : (jwf v0 && jwfPairs kvs) = true)
      have hsz2 : (1 + sizeJ v0 + sizePJ kvs) + 1 ≤ g + 1 := hsz
      have hv1 := sizeJ_pos v0
      rw [serObjTail_cons_eq]
      simp only [List.cons_append, List.append_assoc]
      rw [parseMoreMembers_succ_comma]
      rw [show skipWs (' ' :: (serPair (k, v0) ++ (serObjTail kvs ++ rbrace :: rest))) =
        skipWs (serPair (k, v0) ++ (serObjTail kvs ++ rbrace :: rest))
        from by simp [skipWs, isWs]]
      rw [serPair_eq]
      simp only [List.cons_append, List.append_assoc, List.singleton_append,
        List.nil_append]
      rw [skipWs_cons_not '"' _ (by decide)]
      dsimp only
      rw [if_pos rfl, parseStr_serStr]
      dsimp only
      rw [skipWs_cons_not ':' _ (by decide)]
      dsimp only
      rw [if_pos rfl]
      have hval := (ih g (by omega)).1 v0 (serObjTail kvs ++ rbrace :: rest)
        hvp.1 (by omega) (numOk_of_sepOk _ _ (sepOk_objTail kvs rest))
      have hmore := (ih g (by omega)).2.2 kvs rest hvp.2 (by omega)
      rw [parseVal_space, hval]
      dsimp only
      rw [hmore]

theorem serStr_length (k : String) : 2 ≤ (serStr k).length := by
  simp [serStr]
  try omega

theorem size_le_ser (n : Nat) :
    (∀ v, sizeJ v ≤ n → sizeJ v ≤ 2 * (ser v).length) ∧
    (∀ xs, sizeLJ xs ≤ n → sizeLJ xs ≤ 2 * (serArrTail xs).length) ∧
    (∀ kvs, sizePJ kvs ≤ n → sizePJ kvs ≤ 2 * (serObjTail kvs).length) := by
  induction n using Nat.strong_induction_on with
  | _ n ih =>
  refine ⟨?_, ?_, ?_⟩
  · intro v hv
    cases v with
    | null => simp [sizeJ, ser_null_eq]
    | bool b => cases b <;> simp [sizeJ, ser_true_eq, ser_false_eq]
    | num m =>
      have := intChars_ne_nil m
      have : 1 ≤ (intChars m).length := by
        cases hl : intChars m
        · exact absurd hl (intChars_ne_nil m)
        · simp
      simp [sizeJ, ser_num_eq]
      omega
    | str st =>
      have := serStr_length st
      have h2 : ser (.str st) = serStr st := rfl
      simp only [sizeJ, h2]
      omega
    | arr xs =>
      cases xs with
      | nil => simp [sizeJ, sizeLJ, ser_arr_nil_eq]
      | cons x xs =>
        have hs : sizeJ (JValue.arr (x :: xs)) = 3 + sizeJ x + sizeLJ xs := by
          simp [sizeJ, sizeLJ]
          omega
        have hx : sizeJ x < n := by
          rw [hs] at hv
          omega
        have hxs : sizeLJ xs < n := by
          rw [hs] at hv
          omega
        have i1 := (ih (sizeJ x) hx).1 x le_rfl
        have i2 := (ih (sizeLJ xs) hxs).2.1 xs le_rfl
        have hlen : (ser (JValue.arr (x :: xs))).length =
            2 + (ser x).length + (serArrTail xs).length := by
          rw [ser_arr_cons_eq]
          simp
          omega
        rw [hs, hlen]
        omega
    | obj kvs =>
      cases kvs with
      | nil => simp [sizeJ, sizePJ, ser_obj_nil_eq]
      | cons kv kvs =>
        obtain ⟨k, v0⟩ := kv
        have hs : sizeJ (JValue.obj ((k, v0) :: kvs)) = 3 + sizeJ v0 + sizePJ kvs := by
          simp [sizeJ, sizePJ]
          omega
        have hx : sizeJ v0 < n := by
          rw [hs] at hv
          omega
        have hxs : sizePJ kvs < n := by
          rw [hs] at hv
          omega
        have i1 := (ih (sizeJ v0) hx).1 v0 le_rfl
        have i2 := (ih (sizePJ kvs) hxs).2.2 kvs le_rfl
        have hsk := serStr_length k
        have hlen : (ser (JValue.obj ((k, v0) :: kvs))).length =
            2 + (serStr k).length + 2 + (ser v0).length + (serObjTail kvs).length := by
          rw [ser_obj_cons_eq, serPair_eq]
          simp [serStr]
          omega
        rw [hs, hlen]
        omega
  · intro xs hxs
    cases xs with
    | nil => simp [sizeLJ]
    | cons x xs =>
      have hs : sizeLJ (x :: xs) = 1 + sizeJ x + sizeLJ xs := rfl
      have hx : sizeJ x < n := by
        have := sizeJ_pos x
        rw [hs] at hxs
        omega
      have hx2 : sizeLJ xs < n := by
        have := sizeJ_pos x
        rw [hs] at hxs
        omega
      have i1 := (ih (sizeJ x) hx).1 x le_rfl
      have i2 := (ih (sizeLJ xs) hx2).2.1 xs le_rfl
      have hlen : (serArrTail (x :: xs)).length =
          2 + (ser x).length + (serArrTail xs).length := by
        rw [serArrTail_cons_eq]
        simp
        omega
      rw [hs, hlen]
      omega
  · intro kvs hkvs
    cases kvs with
    | nil => simp [sizePJ]
    | cons kv kvs =>
      obtain ⟨k, v0⟩ := kv
      have hs : sizePJ ((k, v0) :: kvs) = 1 + sizeJ v0 + sizePJ kvs := rfl
      have hx : sizeJ v0 < n := by
        have := sizeJ_pos v0
        rw [hs] at hkvs
        omega
      have hx2 : sizePJ kvs < n := by
        have := sizeJ_pos v0
        rw [hs] at hkvs
        omega
      have i1 := (ih (sizeJ v0) hx).1 v0 le_rfl
      have i2 := (ih (sizePJ kvs) hx2).2.2 kvs le_rfl
      have hsk := serStr_length k
      have hlen : (serObjTail ((k, v0) :: kvs)).length =
          2 + (serStr k).length + 2 + (ser v0).length + (serObjTail kvs).length := by
        rw [serObjTail_cons_eq, serPair_eq]
        simp [serStr]
        omega
      rw [hs, hlen]
      omega

/-- The parser inverts the serializer on well-formed values (the whole-text
strategy of `extract_json` accepts a serialized value). -/
theorem loads_ser (v : JValue) (h : jwf v = true) : loadsL (ser v) = some v := by
  have hsz := (size_le_ser (sizeJ v)).1 v le_rfl
  have hrt := (parse_ser_round (2 * (ser v).length + 2)).1 v [] h (by omega)
    (numOk_of_sepOk _ _ rfl)
  rw [List.append_nil] at hrt
  unfold loadsL
  rw [hrt]
  rfl

theorem json_loads_serialize (v : JValue) (h : jwf v = true) :
    json_loads (serialize v) = some v := loads_ser v h

/-! ### Findall model lemmas -/

theorem stripP_self (p : List Char) : ∀ l, stripP p (p ++ l) = some l := by
  induction p with
  | nil => intro l; rfl
  | cons c p ih =>
    intro l
    simp only [List.cons_append, stripP, if_pos rfl]
    exact ih l

theorem stripP_sound (p : List Char) : ∀ l r, stripP p l = some r → l = p ++ r := by
  induction p with
  | nil =>
    intro l r h
    simp [stripP] at h
    simp [h]
  | cons c p ih =>
    intro l r h
    cases l with
    | nil => simp [stripP] at h
    | cons d l =>
      by_cases hd : d = c
      · subst hd
        simp only [stripP, if_pos rfl] at h
        rw [List.cons_append, ih l r h]
      · simp [stripP, hd] at h

theorem upToLastClose_none (l : List Char) (h : rbrace ∉ l) :
    upToLastClose l = none := by
  induction l with
  | nil => rfl
  | cons c t ih =>
    have hc : ¬ c = rbrace := fun e => h (by simp [e])
    have ht : rbrace ∉ t := fun e => h (by simp [e])
    simp [upToLastClose, ih ht, hc]

theorem upToLastClose_last (mid l2 : List Char) (h : rbrace ∉ l2) :
    upToLastClose (mid ++ rbrace :: l2) = some (mid ++ [rbrace], l2) := by
  induction mid with
  | nil =>
    simp only [List.nil_append, upToLastClose, upToLastClose_none l2 h]
    simp
  | cons c mid ih =>
    simp only [List.cons_append, upToLastClose, List.append_eq, ih]

theorem upToLastClose_some_mem (l pre suf : List Char)
    (h : upToLastClose l = some (pre, suf)) : rbrace ∈ l := by
  induction l generalizing pre suf with
  | nil => simp [upToLastClose] at h
  | cons c t ih =>
    simp only [upToLastClose] at h
    rcases ht : upToLastClose t with _ | ⟨p2, s2⟩
    · rw [ht] at h
      by_cases hc : c = rbrace
      · simp [hc]
      · simp [hc] at h
    · rw [ht] at h
      exact List.mem_cons_of_mem c (ih p2 s2 ht)

theorem stripP_fenceClose_ne (d : List Char) (c : Char) (hc : ¬ c = '\n') :
    stripP fenceClose (c :: d) = none := by
  simp [fenceClose, stripP, hc]

theorem lazyBody_found (mid : List Char) : ∀ suf, '\n' ∉ mid →
    lazyBody (mid ++ rbrace :: (fenceClose ++ suf)) = some (mid, suf) := by
  induction mid with
  | nil =>
    intro suf _
    simp only [List.nil_append, lazyBody, stripP_self fenceClose suf]
    simp
  | cons c mid ih =>
    intro suf hnl
    have hc : '\n' ∉ mid := fun e => hnl (by simp [e])
    have hcond : (c = rbrace &&
        (stripP fenceClose (mid ++ rbrace :: (fenceClose ++ suf))).isSome) = false := by
      rcases mid with _ | ⟨d, mid2⟩
      · simp [stripP_fenceClose_ne _ rbrace (by decide)]
      · have hd : ¬ d = '\n' := fun e => hnl (by simp [e])
        simp [stripP_fenceClose_ne _ d hd]
    simp only [List.cons_append, lazyBody, List.append_eq, hcond]
    simp only [Bool.false_eq_true, if_false]
    rw [ih suf hc]
    simp

theorem tryAlt1_not_btick (c : Char) (cs : List Char) (h : ¬ c = btick) :
    tryAlt1 (c :: cs) = none := by
  simp [tryAlt1, fenceJson, stripP, h]

theorem tryAlt2_not_btick (c : Char) (cs : List Char) (h : ¬ c = btick) :
    tryAlt2 (c :: cs) = none := by
  simp [tryAlt2, fencePlain, stripP, h]

theorem tryAlt3_not_lbrace (c : Char) (cs : List Char) (h : ¬ c = lbrace) :
    tryAlt3 (c :: cs) = none := by
  simp [tryAlt3, h]

theorem findallScan_skip (fuel : Nat) (c : Char) (cs : List Char)
    (h1 : ¬ c = btick) (h2 : ¬ c = lbrace) :
    findallScan (fuel + 1) (c :: cs) = findallScan fuel cs := by
  rw [findallScan.eq_def]
  dsimp only
  rw [tryAlt1_not_btick c cs h1, tryAlt2_not_btick c cs h1, tryAlt3_not_lbrace c cs h2]

theorem findallScan_prose (p : List Char) : ∀ fuel t,
    (∀ c ∈ p, ¬ c = btick ∧ ¬ c = lbrace) →
    findallScan (p.length + fuel) (p ++ t) = findallScan fuel t := by
  induction p with
  | nil =>
    intro fuel t _
    simp
  | cons c p ih =>
    intro fuel t h
    have hc := h c (by simp)
    have hlen : (c :: p).length + fuel = (p.length + fuel) + 1 := by
      simp
      omega
    rw [hlen, List.cons_append, findallScan_skip _ _ _ hc.1 hc.2,
      ih fuel t (fun d hd => h d (by simp [hd]))]

theorem findallScan_alt1 (fuel : Nat) (c : Char) (rest cap rem : List Char)
    (h : tryAlt1 (c :: rest) = some (cap, rem)) :
    findallScan (fuel + 1) (c :: rest) = (cap, [], []) :: findallScan fuel rem := by
  rw [findallScan.eq_def]
  dsimp only
  rw [h]

theorem findallScan_alt3 (fuel : Nat) (c : Char) (rest cap rem : List Char)
    (h1 : tryAlt1 (c :: rest) = none) (h2 : tryAlt2 (c :: rest) = none)
    (h3 : tryAlt3 (c :: rest) = some (cap, rem)) :
    findallScan (fuel + 1) (c :: rest) = ([], [], cap) :: findallScan fuel rem := by
  rw [findallScan.eq_def]
  dsimp only
  rw [h1, h2, h3]

/-! ### Serializations contain no newline -/

theorem hexDigit_ne_nl (m : Nat) (h : m < 16) : hexDigit m ≠ '\n' := by
  interval_cases m <;> decide

theorem noNl_escapeChar (c : Char) : '\n' ∉ escapeChar c := by
  by_cases h1 : c = '"'
  · subst h1; decide
  by_cases h2 : c = '\\'
  · subst h2; decide
  by_cases h3 : c = '\n'
  · subst h3; decide
  by_cases h4 : c = '\r'
  · subst h4; decide
  by_cases h5 : c = '\t'
  · subst h5; decide
  by_cases h6 : c = '\x08'
  · subst h6; decide
  by_cases h7 : c = '\x0c'
  · subst h7; decide
  by_cases h8 : c.toNat < 32
  · have he : escapeChar c =
        ['\\', 'u', '0', '0', hexDigit (c.toNat / 16), hexDigit (c.toNat % 16)] := by
      simp [escapeChar, h1, h2, h3, h4, h5, h6, h7, h8]
    rw [he]
    intro hmem
    rcases List.mem_cons.mp hmem with h | hmem
    · exact absurd h (by decide)
    rcases List.mem_cons.mp hmem with h | hmem
    · exact absurd h (by decide)
    rcases List.mem_cons.mp hmem with h | hmem
    · exact absurd h (by decide)
    rcases List.mem_cons.mp hmem with h | hmem
    · exact absurd h (by decide)
    rcases List.mem_cons.mp hmem with h | hmem
    · exact hexDigit_ne_nl _ (by omega) h.symm
    rcases List.mem_cons.mp hmem with h | hmem
    · exact hexDigit_ne_nl _ (Nat.mod_lt _ (by omega)) h.symm
    · simp at hmem
  · have he : escapeChar c = [c] := by
      simp [escapeChar, h1, h2, h3, h4, h5, h6, h7, h8]
    rw [he]
    intro hmem
    exact h3 (List.mem_singleton.mp hmem).symm

theorem noNl_serStr (k : String) : '\n' ∉ serStr k := by
  unfold serStr
  intro h
  rcases List.mem_cons.mp h with h | h
  · exact absurd h (by decide)
  rcases List.mem_append.mp h with h | h
  · obtain ⟨c, _, hc⟩ := List.mem_flatMap.mp h
    exact noNl_escapeChar c hc
  · exact absurd (List.mem_singleton.mp h) (by decide)

theorem noNl_intChars (n : Int) : '\n' ∉ intChars n := by
  intro h
  unfold intChars at h
  have hd : ∀ c ∈ natDigits n.natAbs, isDigitC c = true := (natDigits_spec n.natAbs).1
  split at h
  · rcases List.mem_cons.mp h with h | h
    · exact absurd h.symm (by decide)
    · exact absurd (hd _ h) (by decide)
  · exact absurd (hd _ h) (by decide)

theorem noNl_ser (n : Nat) :
    (∀ v, sizeJ v ≤ n → '\n' ∉ ser v) ∧
    (∀ xs, sizeLJ xs ≤ n → '\n' ∉ serArrTail xs) ∧
    (∀ kvs, sizePJ kvs ≤ n → '\n' ∉ serObjTail kvs) := by
  induction n using Nat.strong_induction_on with
  | _ n ih =>
  refine ⟨?_, ?_, ?_⟩
  · intro v hv hmem
    cases v with
    | null => rw [ser_null_eq] at hmem; exact absurd hmem (by decide)
    | bool b =>
      cases b
      · rw [ser_false_eq] at hmem; exact absurd hmem (by decide)
      · rw [ser_true_eq] at hmem; exact absurd hmem (by decide)
    | num m => exact noNl_intChars m hmem
    | str st => exact noNl_serStr st hmem
    | arr xs =>
      cases xs with
      | nil => rw [ser_arr_nil_eq] at hmem; exact absurd hmem (by decide)
      | cons x xs =>
        have hs : sizeJ (JValue.arr (x :: xs)) = 3 + sizeJ x + sizeLJ xs := by
          simp [sizeJ, sizeLJ]; try omega
        rw [ser_arr_cons_eq] at hmem
        rcases List.mem_cons.mp hmem with h | h
        · exact absurd h.symm (by decide)
        rcases List.mem_append.mp h with h | h
        · rcases List.mem_append.mp h with h | h
          · exact (ih (sizeJ x) (by omega)).1 x le_rfl h
          · exact (ih (sizeLJ xs) (by have := sizeJ_pos x; omega)).2.1 xs le_rfl h
        · simp at h
    | obj kvs =>
      cases kvs with
      | nil => rw [ser_obj_nil_eq] at hmem; exact absurd hmem (by decide)
      | cons kv kvs =>
        obtain ⟨k, v0⟩ := kv
        have hs : sizeJ (JValue.obj ((k, v0) :: kvs)) = 3 + sizeJ v0 + sizePJ kvs := by
          simp [sizeJ, sizePJ]; try omega
        rw [ser_obj_cons_eq] at hmem
        rcases List.mem_cons.mp hmem with h | h
        · exact absurd h.symm (by decide)
        rcases List.mem_append.mp h with h | h
        · rcases List.mem_append.mp h with h | h
          · rw [serPair_eq] at h
            rcases List.mem_append.mp h with h | h
            · rcases List.mem_cons.mp h with h | h
              · exact absurd h.symm (by decide)
              · rcases List.mem_append.mp h with h | h
                · simp at h
                  obtain ⟨c, _, hc⟩ := h
                  exact noNl_escapeChar c hc
                · simp at h
            · rcases List.mem_cons.mp h with h | h
              · exact absurd h.symm (by decide)
              rcases List.mem_cons.mp h with h | h
              · exact absurd h.symm (by decide)
              · exact (ih (sizeJ v0) (by omega)).1 v0 le_rfl h
          · exact (ih (sizePJ kvs) (by have := sizeJ_pos v0; omega)).2.2 kvs le_rfl h
        · simp at h
          exact absurd h (by decide)
  · intro xs hxs hmem
    cases xs with
    | nil => simp [serArrTail] at hmem
    | cons x xs =>
      have h1 := sizeJ_pos x
      rw [serArrTail_cons_eq] at hmem
      rcases List.mem_cons.mp hmem with h | h
      · exact absurd h.symm (by decide)
      rcases List.mem_cons.mp h with h | h
      · exact absurd h.symm (by decide)
      rcases List.mem_append.mp h with h | h
      · exact (ih (sizeJ x) (by simp [sizeLJ] at hxs; omega)).1 x le_rfl h
      · exact (ih (sizeLJ xs) (by simp [sizeLJ] at hxs; omega)).2.1 xs le_rfl h
  · intro kvs hkvs hmem
    cases kvs with
    | nil => simp [serObjTail] at hmem
    | cons kv kvs =>
      obtain ⟨k, v0⟩ := kv
      have h1 := sizeJ_pos v0
      rw [serObjTail_cons_eq] at hmem
      rcases List.mem_cons.mp hmem with h | h
      · exact absurd h.symm (by decide)
      rcases List.mem_cons.mp h with h | h
      · exact absurd h.symm (by decide)
      rcases List.mem_append.mp h with h | h
      · rw [serPair_eq] at h
        rcases List.mem_append.mp h with h | h
        · rcases List.mem_cons.mp h with h | h
          · exact absurd h.symm (by decide)
          · rcases List.mem_append.mp h with h | h
            · simp at h
              obtain ⟨c, _, hc⟩ := h
              exact noNl_escapeChar c hc
            · simp at h
        · rcases List.mem_cons.mp h with h | h
          · exact absurd h.symm (by decide)
          rcases List.mem_cons.mp h with h | h
          · exact absurd h.symm (by decide)
          · exact (ih (sizeJ v0) (by simp [sizePJ] at hkvs; omega)).1 v0 le_rfl h
      · exact (ih (sizePJ kvs) (by simp [sizePJ] at hkvs; omega)).2.2 kvs le_rfl h

/-! ### Whole-text parse on prose-wrapped input -/

theorem skipWs_idem (l : List Char) : skipWs (skipWs l) = skipWs l := by
  induction l with
  | nil => rfl
  | cons c t ih =>
    by_cases h : isWs c
    · simpa [skipWs, h] using ih
    · simp [skipWs, h]

theorem parseVal_eq_skip (f : Nat) (l : List Char) :
    parseVal f l = parseVal f (skipWs l) := by
  cases f with
  | zero => rfl
  | succ f =>
    rw [parseVal.eq_def, parseVal.eq_def]
    dsimp only
    rw [skipWs_idem]

theorem skipWs_app_left (p X : List Char) (c : Char) (t : List Char)
    (h : skipWs p = c :: t) : skipWs (p ++ X) = c :: (t ++ X) := by
  induction p with
  | nil =>
    simp [skipWs] at h
  | cons d p ih =>
    by_cases hd : isWs d
    · rw [skipWs] at h
      rw [if_pos hd] at h
      simp only [List.cons_append, skipWs, hd, if_pos]
      exact ih h
    · rw [skipWs] at h
      rw [if_neg hd] at h
      injection h with h1 h2
      subst h1
      subst h2
      rw [List.cons_append, skipWs, if_neg hd]

theorem skipWs_nil_ws (p X : List Char) (h : skipWs p = []) :
    skipWs (p ++ X) = skipWs X := by
  induction p with
  | nil => rfl
  | cons d p ih =>
    by_cases hd : isWs d
    · rw [skipWs, if_pos hd] at h
      simp only [List.cons_append, skipWs, hd, if_pos]
      exact ih h
    · rw [skipWs, if_neg hd] at h
      cases h

theorem skipWs_mem (l : List Char) (c : Char) (t : List Char)
    (h : skipWs l = c :: t) : c ∈ l ∧ isWs c = false := by
  induction l with
  | nil => simp [skipWs] at h
  | cons d l ih =>
    by_cases hd : isWs d
    · rw [skipWs, if_pos hd] at h
      have := ih h
      exact ⟨by simp [this.1], this.2⟩
    · rw [skipWs, if_neg hd] at h
      injection h with h1 _
      subst h1
      exact ⟨by simp, by simpa using hd⟩

theorem takeDigits_sound (cs : List Char) :
    cs = (takeDigits cs).1 ++ (takeDigits cs).2 ∧
      ∀ c ∈ (takeDigits cs).1, isDigitC c = true := by
  induction cs with
  | nil => exact ⟨rfl, fun c hc => absurd hc (by simp [takeDigits])⟩
  | cons c t ih =>
    by_cases hc : isDigitC c
    · simp only [takeDigits, hc, if_pos]
      refine ⟨by rw [List.cons_append, ← ih.1], ?_⟩
      intro d hd
      rcases List.mem_cons.mp hd with rfl | hd
      · exact hc
      · exact ih.2 d hd
    · simp only [takeDigits, hc, if_neg]
      exact ⟨rfl, by simp⟩

theorem parseNumNat_suffix (cs : List Char) (m : Nat) (r : List Char)
    (h : parseNumNat cs = some (m, r)) :
    ∃ ds, cs = ds ++ r ∧ ∀ c ∈ ds, isDigitC c = true := by
  have h2 : (if (takeDigits cs).1.isEmpty = true then none
      else if leadZero (takeDigits cs).1 = true then none
      else if floatCont (takeDigits cs).2 = true then none
      else some (digitsToNat (takeDigits cs).1, (takeDigits cs).2)) = some (m, r) := h
  split at h2
  · cases h2
  split at h2
  · cases h2
  split at h2
  · cases h2
  injection h2 with h3
  refine ⟨(takeDigits cs).1, ?_, (takeDigits_sound cs).2⟩
  have h4 := (takeDigits_sound cs).1
  have hr : r = (takeDigits cs).2 := (congrArg Prod.snd h3).symm
  rw [hr]
  exact h4

theorem lbrace_not_ws : isWs lbrace = false := by decide

theorem lbrace_not_digit : isDigitC lbrace = false := by decide

/-- If the remainder of a successful parse still contains an opening brace,
the whole-text `json.loads` fails on the leftover check. -/
theorem loadsL_leftover (l : List Char) (v : JValue) (r : List Char)
    (hp : parseVal (2 * l.length + 2) l = some (v, r)) (hm : lbrace ∈ r) :
    loadsL l = none := by
  unfold loadsL
  rw [hp]
  have : skipWs r ≠ [] := skipWs_ne_nil r lbrace hm lbrace_not_ws
  simp [List.isEmpty_iff, this]

theorem loadsL_none_of_parse (l : List Char)
    (h : parseVal (2 * l.length + 2) l = none) : loadsL l = none := by
  unfold loadsL
  rw [h]

theorem ser_obj_shape (kvs : List (String × JValue)) :
    ∃ mid, ser (.obj kvs) = lbrace :: (mid ++ [rbrace]) ∧ '\n' ∉ mid := by
  cases kvs with
  | nil => exact ⟨[], rfl, by simp⟩
  | cons kv kvs =>
    refine ⟨serPair kv ++ serObjTail kvs, ?_, ?_⟩
    · rw [ser_obj_cons_eq, List.append_assoc]
    · intro h
      have h2 : '\n' ∈ ser (JValue.obj (kv :: kvs)) := by
        rw [ser_obj_cons_eq]
        exact List.mem_cons_of_mem _ (List.mem_append_left _ h)
      exact (noNl_ser (sizeJ (JValue.obj (kv :: kvs)))).1 _ le_rfl h2

theorem lbrace_mem_ser_obj (kvs : List (String × JValue)) (X : List Char) :
    lbrace ∈ ser (.obj kvs) ++ X := by
  obtain ⟨mid, hsh, _⟩ := ser_obj_shape kvs
  rw [hsh]
  simp

theorem loads_prose_cases (kvs : List (String × JValue)) (p1 p2 : List Char)
    (hwf : jwf (.obj kvs) = true)
    (H1 : ∀ c ∈ p1, ¬ c = lbrace ∧ ¬ c = rbrace ∧ ¬ c = btick)
    (H3 : headOkProse (skipWs p1) = true) :
    loadsL (p1 ++ (ser (.obj kvs) ++ p2)) = none ∨
      loadsL (p1 ++ (ser (.obj kvs) ++ p2)) = some (.obj kvs) := by
  have hlb : lbrace ∈ ser (.obj kvs) ++ p2 := lbrace_mem_ser_obj kvs p2
  have hlbL : lbrace ∈ p1 ++ (ser (.obj kvs) ++ p2) := List.mem_append_right _ hlb
  rcases hsk : skipWs p1 with _ | ⟨c, t⟩
  · -- the prose prefix is pure whitespace: the whole text may parse, and
    -- when it does the value is the embedded object
    have hsz := (size_le_ser (sizeJ (JValue.obj kvs))).1 _ le_rfl
    have hv : parseVal (2 * (p1 ++ (ser (.obj kvs) ++ p2)).length + 2)
        (p1 ++ (ser (.obj kvs) ++ p2)) = some (.obj kvs, p2) := by
      rw [parseVal_eq_skip, skipWs_nil_ws p1 _ hsk, ← parseVal_eq_skip]
      apply (parse_ser_round _).1 (.obj kvs) p2 hwf ?_ rfl
      simp only [List.length_append]
      omega
    by_cases hemp : (skipWs p2).isEmpty
    · right
      unfold loadsL
      rw [hv]
      simp [hemp]
    · left
      unfold loadsL
      rw [hv]
      simp [hemp]
  · obtain ⟨hcmem, hcws⟩ := skipWs_mem p1 c t hsk
    obtain ⟨hcl, hcr, hcb⟩ := H1 c hcmem
    rw [hsk] at H3
    have H3' : ¬ c = '"' ∧ ¬ c = '[' := by
      simpa [headOkProse] using H3
    obtain ⟨hq, hbr⟩ := H3'
    have hskL : skipWs (p1 ++ (ser (.obj kvs) ++ p2)) =
        c :: (t ++ (ser (.obj kvs) ++ p2)) := skipWs_app_left p1 _ c t hsk
    obtain ⟨F2, hF2⟩ : ∃ F2, 2 * (p1 ++ (ser (.obj kvs) ++ p2)).length + 2 = F2 + 1 :=
      ⟨2 * (p1 ++ (ser (.obj kvs) ++ p2)).length + 1, by omega⟩
    have hstep : parseVal (2 * (p1 ++ (ser (.obj kvs) ++ p2)).length + 2)
        (p1 ++ (ser (.obj kvs) ++ p2)) =
        parseVal (F2 + 1) (c :: (t ++ (ser (.obj kvs) ++ p2))) := by
      rw [parseVal_eq_skip, hskL, hF2]
    have hlbt : lbrace ∈ t ++ (ser (.obj kvs) ++ p2) := List.mem_append_right _ hlb
    by_cases hn : c = 'n'
    · subst hn
      left
      rcases hstrip : stripP ['u', 'l', 'l'] (t ++ (ser (.obj kvs) ++ p2)) with _ | r
      · apply loadsL_none_of_parse
        rw [hstep, parseVal_succ_null, hstrip]
        rfl
      · apply loadsL_leftover _ JValue.null r
        · rw [hstep, parseVal_succ_null, hstrip]
          rfl
        · have hsound := stripP_sound _ _ _ hstrip
          rw [hsound] at hlbt
          rcases List.mem_append.mp hlbt with h | h
          · exact absurd h (by decide)
          · exact h
    by_cases ht : c = 't'
    · subst ht
      left
      rcases hstrip : stripP ['r', 'u', 'e'] (t ++ (ser (.obj kvs) ++ p2)) with _ | r
      · apply loadsL_none_of_parse
        rw [hstep, parseVal_succ_true, hstrip]
        rfl
      · apply loadsL_leftover _ (JValue.bool true) r
        · rw [hstep, parseVal_succ_true, hstrip]
          rfl
        · have hsound := stripP_sound _ _ _ hstrip
          rw [hsound] at hlbt
          rcases List.mem_append.mp hlbt with h | h
          · exact absurd h (by decide)
          · exact h
    by_cases hf : c = 'f'
    · subst hf
      left
      rcases hstrip : stripP ['a', 'l', 's', 'e'] (t ++ (ser (.obj kvs) ++ p2)) with _ | r
      · apply loadsL_none_of_parse
        rw [hstep, parseVal_succ_false, hstrip]
        rfl
      · apply loadsL_leftover _ (JValue.bool false) r
        · rw [hstep, parseVal_succ_false, hstrip]
          rfl
        · have hsound := stripP_sound _ _ _ hstrip
          rw [hsound] at hlbt
          rcases List.mem_append.mp hlbt with h | h
          · exact absurd h (by decide)
          · exact h
    by_cases hdash : c = '-'
    · subst hdash
      left
      rcases hpn : parseNumNat (t ++ (ser (.obj kvs) ++ p2)) with _ | ⟨m, r⟩
      · apply loadsL_none_of_parse
        rw [hstep, parseVal_succ_neg]
        simp [parseNum, hpn]
      · apply loadsL_leftover _ (JValue.num (-(m : Int))) r
        · rw [hstep, parseVal_succ_neg]
          simp [parseNum, hpn]
        · obtain ⟨ds, hds, hdig⟩ := parseNumNat_suffix _ _ _ hpn
          rw [hds] at hlbt
          rcases List.mem_append.mp hlbt with h | h
          · have := hdig _ h
            rw [lbrace_not_digit] at this
            cases this
          · exact h
    by_cases hdig : isDigitC c
    · left
      rcases hpn : parseNumNat (c :: (t ++ (ser (.obj kvs) ++ p2))) with _ | ⟨m, r⟩
      · apply loadsL_none_of_parse
        rw [hstep, parseVal_succ_digit _ _ _ hdig]
        simp [parseNum, hdash, hpn]
      · apply loadsL_leftover _ (JValue.num (m : Int)) r
        · rw [hstep, parseVal_succ_digit _ _ _ hdig]
          simp [parseNum, hdash, hpn]
        · obtain ⟨ds, hds, hdigs⟩ := parseNumNat_suffix _ _ _ hpn
          have hlbc : lbrace ∈ c :: (t ++ (ser (.obj kvs) ++ p2)) :=
            List.mem_cons_of_mem _ hlbt
          rw [hds] at hlbc
          rcases List.mem_append.mp hlbc with h | h
          · have := hdigs _ h
            rw [lbrace_not_digit] at this
            cases this
          · exact h
    · left
      apply loadsL_none_of_parse
      rw [hstep, parseVal.eq_def]
      dsimp only
      rw [skipWs_cons_not _ _ hcws]
      simp [hq, hcl, hbr, hn, ht, hf, hdash, hdig]

theorem parseVal_btick_none (f : Nat) (rest : List Char) :
    parseVal f (btick :: rest) = none := by
  cases f with
  | zero => rfl
  | succ f =>
    rw [parseVal.eq_def]
    dsimp only
    rw [skipWs_cons_not _ _ (by decide)]
    have h1 : ¬ btick = '"' := by decide
    have h2 : ¬ btick = lbrace := by decide
    have h3 : ¬ btick = '[' := by decide
    have h4 : ¬ btick = 'n' := by decide
    have h5 : ¬ btick = 't' := by decide
    have h6 : ¬ btick = 'f' := by decide
    have h7 : ¬ btick = '-' := by decide
    have h8 : isDigitC btick = false := by decide
    simp [h1, h2, h3, h4, h5, h6, h7, h8]

theorem findallScan_nil (f : Nat) : findallScan f [] = [] := by
  cases f <;> rfl

theorem findallScan_clean (t : List Char) : ∀ fuel,
    (∀ c ∈ t, ¬ c = btick ∧ ¬ c = lbrace) → findallScan fuel t = [] := by
  induction t with
  | nil => intro fuel _; exact findallScan_nil fuel
  | cons c t ih =>
    intro fuel h
    cases fuel with
    | zero => rfl
    | succ f =>
      have hc := h c (List.mem_cons_self c t)
      rw [findallScan_skip f c t hc.1 hc.2]
      exact ih f (fun d hd => h d (List.mem_cons_of_mem c hd))

/-- The fenced case of the extraction contract: the whole-text parse fails at
the opening backtick, and the findall pass captures the fenced object, which
round-trips. -/
theorem extract_json_fenced (kvs : List (String × JValue))
    (h : jwf (.obj kvs) = true) :
    extract_json (String.mk (fenceJson ++ (ser (.obj kvs) ++ fenceClose))) =
      .ok (.obj kvs) := by
  obtain ⟨mid, hsh, hnl⟩ := ser_obj_shape kvs
  have hnone : loadsL (String.mk (fenceJson ++ (ser (.obj kvs) ++ fenceClose))).data
      = none := by
    apply loadsL_none_of_parse
    exact parseVal_btick_none _ _
  have halt1 : tryAlt1 (fenceJson ++ (ser (.obj kvs) ++ fenceClose)) =
      some (lbrace :: (mid ++ [rbrace]), []) := by
    unfold tryAlt1
    rw [stripP_self fenceJson _]
    rw [hsh, List.cons_append]
    dsimp only
    rw [if_pos rfl]
    have hl := lazyBody_found mid [] hnl
    rw [List.append_nil] at hl
    rw [List.append_assoc, List.singleton_append, hl]
    rfl
  obtain ⟨n, hn⟩ : ∃ n,
      (fenceJson ++ (ser (.obj kvs) ++ fenceClose)).length = n + 1 :=
    ⟨7 + (ser (.obj kvs) ++ fenceClose).length, by
      simp only [List.length_append]
      rw [show fenceJson.length = 8 from rfl]
      omega⟩
  have hscan : findallScan
      (String.mk (fenceJson ++ (ser (.obj kvs) ++ fenceClose))).data.length
      (String.mk (fenceJson ++ (ser (.obj kvs) ++ fenceClose))).data =
      [(lbrace :: (mid ++ [rbrace]), [], [])] := by
    show findallScan (fenceJson ++ (ser (.obj kvs) ++ fenceClose)).length
      (fenceJson ++ (ser (.obj kvs) ++ fenceClose)) = _
    rw [hn]
    rw [show fenceJson ++ (ser (.obj kvs) ++ fenceClose) =
        btick :: ([btick, btick, 'j', 's', 'o', 'n', '\n'] ++
          (ser (.obj kvs) ++ fenceClose)) from rfl]
    have halt1c : tryAlt1 (btick :: ([btick, btick, 'j', 's', 'o', 'n', '\n'] ++
        (ser (.obj kvs) ++ fenceClose))) = some (lbrace :: (mid ++ [rbrace]), []) := halt1
    rw [findallScan_alt1 n btick _ _ _ halt1c]
    rw [findallScan_nil]
  have hfp : firstParse [lbrace :: (mid ++ [rbrace])] = some (.obj kvs) := by
    unfold firstParse
    rw [← hsh, loads_ser _ h]
  unfold extract_json
  rw [hnone]
  dsimp only
  rw [hscan]
  have hg : groupStrings [(lbrace :: (mid ++ [rbrace]), [], [])] =
      [lbrace :: (mid ++ [rbrace])] := by
    simp [groupStrings]
  rw [hg, hfp]

/-- The prose case of the extraction contract: surrounding text free of
braces and backticks, whose first non-space character does not open a JSON
value that could swallow the object, leaves the embedded object as the sole
findall capture (or lets the whole text parse to exactly the object). -/
theorem extract_json_prose (kvs : List (String × JValue)) (p1 p2 : List Char)
    (hwf : jwf (.obj kvs) = true)
    (H1 : ∀ c ∈ p1, ¬ c = lbrace ∧ ¬ c = rbrace ∧ ¬ c = btick)
    (H2 : ∀ c ∈ p2, ¬ c = lbrace ∧ ¬ c = rbrace ∧ ¬ c = btick)
    (H3 : headOkProse (skipWs p1) = true) :
    extract_json (String.mk (p1 ++ (ser (.obj kvs) ++ p2))) = .ok (.obj kvs) := by
  obtain ⟨mid, hsh, hnl⟩ := ser_obj_shape kvs
  have hrb : rbrace ∉ p2 := fun hm => (H2 _ hm).2.1 rfl
  rcases loads_prose_cases kvs p1 p2 hwf H1 H3 with hnone | hsome
  · have hnone' : loadsL (String.mk (p1 ++ (ser (.obj kvs) ++ p2))).data = none :=
      hnone
    have halt3 : tryAlt3 (lbrace :: ((mid ++ [rbrace]) ++ p2)) =
        some (lbrace :: (mid ++ [rbrace]), p2) := by
      unfold tryAlt3
      dsimp only
      rw [if_pos rfl, List.append_assoc, List.singleton_append,
        upToLastClose_last mid p2 hrb]
      rfl
    have hscan : findallScan (String.mk (p1 ++ (ser (.obj kvs) ++ p2))).data.length
        (String.mk (p1 ++ (ser (.obj kvs) ++ p2))).data =
        [([], [], lbrace :: (mid ++ [rbrace]))] := by
      show findallScan (p1 ++ (ser (.obj kvs) ++ p2)).length
        (p1 ++ (ser (.obj kvs) ++ p2)) = _
      rw [show (p1 ++ (ser (.obj kvs) ++ p2)).length =
        p1.length + (ser (.obj kvs) ++ p2).length from by simp]
      rw [findallScan_prose p1 _ _ (fun c hc => ⟨(H1 c hc).2.2, (H1 c hc).1⟩)]
      rw [hsh, List.cons_append]
      rw [show ((lbrace :: ((mid ++ [rbrace]) ++ p2)).length) =
        ((mid ++ [rbrace]) ++ p2).length + 1 from rfl]
      rw [findallScan_alt3 _ lbrace _ _ _
        (tryAlt1_not_btick _ _ (by decide)) (tryAlt2_not_btick _ _ (by decide)) halt3]
      rw [findallScan_clean p2 _ (fun c hc => ⟨(H2 c hc).2.2, (H2 c hc).1⟩)]
    have hfp : firstParse [lbrace :: (mid ++ [rbrace])] = some (.obj kvs) := by
      unfold firstParse
      rw [← hsh, loads_ser _ hwf]
    unfold extract_json
    rw [hnone']
    dsimp only
    rw [hscan]
    have hg : groupStrings [([], [], lbrace :: (mid ++ [rbrace]))] =
        [lbrace :: (mid ++ [rbrace])] := by
      simp [groupStrings]
    rw [hg, hfp]
  · have hsome' : loadsL (String.mk (p1 ++ (ser (.obj kvs) ++ p2))).data =
        some (.obj kvs) := hsome
    unfold extract_json
    rw [hsome']

theorem lazyBody_mem_rbrace : ∀ l p, lazyBody l = some p → rbrace ∈ l := by
  intro l
  induction l with
  | nil => intro p h; exact Option.noConfusion h
  | cons c rest ih =>
    intro p h
    by_cases hc : c = rbrace
    · subst hc; exact List.mem_cons_self _ _
    · have hcond : (c = rbrace && (stripP fenceClose rest).isSome) = false := by
        simp [hc]
      unfold lazyBody at h
      rw [hcond] at h
      simp only [Bool.false_eq_true, if_false] at h
      rcases hlz : lazyBody rest with _ | q
      · rw [hlz] at h; exact Option.noConfusion h
      · exact List.mem_cons_of_mem _ (ih q hlz)

theorem tryAlt1_noSpan (c : Char) (rest : List Char)
    (hns : ∀ l1 l2, c :: rest = l1 ++ lbrace :: l2 → rbrace ∉ l2) :
    tryAlt1 (c :: rest) = none := by
  unfold tryAlt1
  rcases hst : stripP fenceJson (c :: rest) with _ | cs1
  · rfl
  · cases cs1 with
    | nil => rfl
    | cons d rest1 =>
      dsimp only
      by_cases hd : d = lbrace
      · subst hd
        rw [if_pos rfl]
        have hdec := stripP_sound fenceJson _ _ hst
        have hnb : rbrace ∉ rest1 := hns fenceJson rest1 hdec
        rcases hlz : lazyBody rest1 with _ | q
        · rfl
        · exact absurd (lazyBody_mem_rbrace rest1 q hlz) hnb
      · rw [if_neg hd]

theorem tryAlt2_noSpan (c : Char) (rest : List Char)
    (hns : ∀ l1 l2, c :: rest = l1 ++ lbrace :: l2 → rbrace ∉ l2) :
    tryAlt2 (c :: rest) = none := by
  unfold tryAlt2
  rcases hst : stripP fencePlain (c :: rest) with _ | cs1
  · rfl
  · cases cs1 with
    | nil => rfl
    | cons d rest1 =>
      dsimp only
      by_cases hd : d = lbrace
      · subst hd
        rw [if_pos rfl]
        have hdec := stripP_sound fencePlain _ _ hst
        have hnb : rbrace ∉ rest1 := hns fencePlain rest1 hdec
        rcases hlz : lazyBody rest1 with _ | q
        · rfl
        · exact absurd (lazyBody_mem_rbrace rest1 q hlz) hnb
      · rw [if_neg hd]

theorem tryAlt3_noSpan (c : Char) (rest : List Char)
    (hns : ∀ l1 l2, c :: rest = l1 ++ lbrace :: l2 → rbrace ∉ l2) :
    tryAlt3 (c :: rest) = none := by
  unfold tryAlt3
  dsimp only
  by_cases hc : c = lbrace
  · subst hc
    rw [if_pos rfl]
    have hnb : rbrace ∉ rest := hns [] rest rfl
    rw [upToLastClose_none rest hnb]
    rfl
  · rw [if_neg hc]

theorem findallScan_noSpan : ∀ fuel t,
    (∀ l1 l2, t = l1 ++ lbrace :: l2 → rbrace ∉ l2) → findallScan fuel t = [] := by
  intro fuel
  induction fuel with
  | zero => intro t _; rfl
  | succ f ih =>
    intro t hns
    cases t with
    | nil => rfl
    | cons c rest =>
      have hsuffix : ∀ l1 l2, rest = l1 ++ lbrace :: l2 → rbrace ∉ l2 := by
        intro l1 l2 hdec
        exact hns (c :: l1) l2 (by rw [hdec]; rfl)
      rw [findallScan.eq_def]
      dsimp only
      rw [tryAlt1_noSpan c rest hns, tryAlt2_noSpan c rest hns,
        tryAlt3_noSpan c rest hns]
      exact ih rest hsuffix

theorem searchBrace_noSpan : ∀ t,
    (∀ l1 l2, t = l1 ++ lbrace :: l2 → rbrace ∉ l2) → searchBrace t = none := by
  intro t
  induction t with
  | nil => intro _; rfl
  | cons c rest ih =>
    intro hns
    have hsuffix : ∀ l1 l2, rest = l1 ++ lbrace :: l2 → rbrace ∉ l2 := by
      intro l1 l2 hdec
      exact hns (c :: l1) l2 (by rw [hdec]; rfl)
    unfold searchBrace
    by_cases hc : c = lbrace
    · subst hc
      rw [if_pos rfl]
      have hnb : rbrace ∉ rest := hns [] rest rfl
      rw [upToLastClose_none rest hnb]
      exact ih hsuffix
    · rw [if_neg hc]
      exact ih hsuffix

/-- Claim C2: for every well-formed JSON object value, `extract_json`
recovers exactly that object from (a) its bare serialization, (b) the
serialization wrapped in a json-tagged fenced code block, and (c) the
serialization wrapped in leading and trailing explanatory prose, provided
the prose contains no braces or backticks and its first non-space character
does not itself open a JSON string or array. -/
theorem extract_json_three_wrappings (kvs : List (String × JValue))
    (p1 p2 : List Char) (hwf : jwf (.obj kvs) = true)
    (H1 : ∀ c ∈ p1, ¬ c = lbrace ∧ ¬ c = rbrace ∧ ¬ c = btick)
    (H2 : ∀ c ∈ p2, ¬ c = lbrace ∧ ¬ c = rbrace ∧ ¬ c = btick)
    (H3 : headOkProse (skipWs p1) = true) :
    extract_json (serialize (.obj kvs)) = .ok (.obj kvs) ∧
    extract_json (String.mk (fenceJson ++ (ser (.obj kvs) ++ fenceClose))) =
      .ok (.obj kvs) ∧
    extract_json (String.mk (p1 ++ (ser (.obj kvs) ++ p2))) = .ok (.obj kvs) := by
  refine ⟨?_, extract_json_fenced kvs hwf, extract_json_prose kvs p1 p2 hwf H1 H2 H3⟩
  have ha : loadsL (serialize (JValue.obj kvs)).data = some (JValue.obj kvs) :=
    loads_ser _ hwf
  unfold extract_json
  rw [ha]

/-- Witness for C2 at the object with one key and prose wrappers. -/
theorem extract_json_three_wrappings_witness :
    jwf (JValue.obj [("a", JValue.num 1)]) = true ∧
    (extract_json (serialize (JValue.obj [("a", JValue.num 1)])) =
        .ok (JValue.obj [("a", JValue.num 1)]) ∧
      extract_json (String.mk (fenceJson ++
        (ser (JValue.obj [("a", JValue.num 1)]) ++ fenceClose))) =
        .ok (JValue.obj [("a", JValue.num 1)]) ∧
      extract_json (String.mk ("Here is the answer:\n".data ++
        (ser (JValue.obj [("a", JValue.num 1)]) ++ "\nThat is all.".data))) =
        .ok (JValue.obj [("a", JValue.num 1)])) :=
  ⟨by decide, extract_json_three_wrappings [("a", JValue.num 1)]
    "Here is the answer:\n".data "\nThat is all.".data (by decide) (by decide)
    (by decide) (by decide)⟩

/-- Claim C3 (amended): an input that is not itself valid JSON and contains
no brace-delimited span makes `extract_json` fail with status 500 and the
wrapped catch-all detail. -/
theorem extract_json_no_brace_span_errors (s : String)
    (h1 : json_loads s = none)
    (h2 : ∀ l1 l2, s.data = l1 ++ lbrace :: l2 → rbrace ∉ l2) :
    extract_json s =
      .error ⟨500, "Failed to extract JSON: 500: No valid JSON found in response."⟩ := by
  have h1x : loadsL s.data = none := h1
  unfold extract_json
  rw [h1x]
  dsimp only
  rw [findallScan_noSpan _ _ h2, searchBrace_noSpan _ h2]
  rfl

/-- Witness for the amended C3 on a braceless non-JSON input. -/
theorem extract_json_no_brace_span_errors_witness :
    json_loads "no json here" = none ∧
    extract_json "no json here" =
      .error ⟨500, "Failed to extract JSON: 500: No valid JSON found in response."⟩ :=
  ⟨rfl, extract_json_no_brace_span_errors "no json here" rfl
    (fun l1 l2 h => by
      have hm : lbrace ∈ "no json here".data := by
        rw [h]
        exact List.mem_append_right _ (List.mem_cons_self _ _)
      exact absurd hm (by decide))⟩
